import Mathlib

/-!
# Verification of the glox front-end pipeline

A shallow embedding of the glox interpreter's core (FollowTheProcess/glox):
the token model, the state-machine lexer, the recursive-descent parser, the
runtime type system and the tree-walking evaluator, with theorems checking
the natural-language specification's claims against the code.

Modelling conventions:
* Go strings are byte strings; they are embedded as `List Nat` (each entry a
  byte value `< 256`; values outside that range can never arise from real
  input and are treated like invalid UTF-8 start bytes by the decoder, which
  keeps every definition total).
* Go `float64` is embedded as `ℚ` (exact arithmetic).  None of the claims
  under verification depends on IEEE-754 rounding, infinities or NaN, and the
  only numeric literals exercised are small integers, on which the embedding
  agrees with `float64` exactly.
* Go errors are embedded as `Except`/explicit error constructors; a Go
  runtime panic is embedded as a distinct `Fail.crash` outcome so that
  "returns an error" and "panics" remain distinguishable.
* The Go code's trace machinery (`p.trace`, `printTrace` …) only writes to a
  diagnostic sink and never influences parsing; it is omitted (`trace=false`).
-/

namespace Glox

/-- UTF-8 encode a single unicode code point (standard UTF-8 encoding,
used to write concrete Go byte strings in theorem statements). -/
def utf8EncodeChar (c : Nat) : List Nat :=
  if c < 0x80 then [c]
  else if c < 0x800 then [0xC0 + c / 64, 0x80 + c % 64]
  else if c < 0x10000 then [0xE0 + c / 4096, 0x80 + (c / 64) % 64, 0x80 + c % 64]
  else [0xF0 + c / 262144, 0x80 + (c / 4096) % 64, 0x80 + (c / 64) % 64, 0x80 + c % 64]

/-- The bytes of a Go string literal (UTF-8 encoding of the characters). -/
def strBytes (s : String) : List Nat :=
  s.data.flatMap fun c => utf8EncodeChar c.toNat

/-! ## The `types` package: runtime values

Source: `internal/syntax/types/types.go`. -/

/-- `types.Kind`: the kind of Lox type (`KindNumber`, `KindBool`, `KindString`). -/
inductive TKind where
  | number
  | bool
  | string
deriving DecidableEq, Repr

/-- A concrete Lox runtime value (`types.Number`, `types.Bool`, `types.String`).

Go's `types.Type` is an interface; both `types.Bool` *values* and `*types.Bool`
*pointers* implement it and flow through the evaluator, and `IsTruthy`
distinguishes them (its switch has a `case *Bool:` only).  The embedding keeps
them apart:
* `boolRef b` is a `*types.Bool`.  The only `*types.Bool` values the program
  ever creates are the two canonical singletons `types.True` / `types.False`
  ("Only one canonical true and false."), so a `boolRef` *is* a singleton.
* `boolVal b` is a non-pointer `types.Bool` value, as constructed by
  `types.Bool{Value: …}` in the evaluator's `Bang` case. -/
inductive Value where
  | number (v : ℚ)
  | boolRef (b : Bool)
  | boolVal (b : Bool)
  | string (s : List Nat)
deriving DecidableEq, Repr

/-- `types.True` (canonical singleton). -/
def TrueV : Value := .boolRef true

/-- `types.False` (canonical singleton). -/
def FalseV : Value := .boolRef false

/-- The `Kind()` method of `types.Type`. -/
def Value.tkind : Value → TKind
  | .number _ => .number
  | .boolRef _ => .bool
  | .boolVal _ => .bool
  | .string _ => .string

/-- Decimal digits of a natural number, most significant first
(model of Go's decimal formatting of integers; fuel-structured). -/
def natDigitsAux : Nat → Nat → List Nat
  | 0, _ => []
  | fuel + 1, n =>
    if n < 10 then [48 + n]
    else natDigitsAux fuel (n / 10) ++ [48 + n % 10]

/-- Decimal byte string of a natural number. -/
def natBytes (n : Nat) : List Nat := natDigitsAux (n + 1) n

/-- Decimal digits after the point for remainder `r` over denominator `den`,
by long division, up to `fuel` digits (model of the fractional digits
`strconv.FormatFloat` produces for exactly-representable short decimals). -/
def fracDigits : Nat → Nat → Nat → List Nat
  | 0, _, _ => []
  | fuel + 1, r, den =>
    if r = 0 then []
    else (48 + r * 10 / den) :: fracDigits fuel (r * 10 % den) den

/-- Model of `strconv.FormatFloat(v, 'g', -1, 64)` restricted to the values
this embedding constructs: exact on integers (the only numbers any claim
evaluates), and rendering terminating decimal expansions digit by digit
otherwise.  The `'g'` exponent forms for very large/small magnitudes are not
modelled; no claim exercises them. -/
def formatQ (q : ℚ) : List Nat :=
  let sign : List Nat := if q.num < 0 then [45] else []
  let a := q.num.natAbs
  let ip := a / q.den
  let r := a % q.den
  if r = 0 then sign ++ natBytes ip
  else sign ++ natBytes ip ++ [46] ++ fracDigits 20 r q.den

/-- Model of `strconv.FormatBool`. -/
def formatBool (b : Bool) : List Nat :=
  if b then strBytes "true" else strBytes "false"

/-- Is the byte a control/quote/backslash byte that `strconv.Quote` escapes?
(Simplified: claims never compare quoted strings containing such bytes.) -/
def quoteEscapes (b : Nat) : Bool :=
  b < 32 || b = 34 || b = 92 || b ≥ 127

/-- Model of `strconv.Quote`: wrap in double quotes, escaping specials.
Escapes are rendered as backslash + the raw byte (enough to keep `Quote`
injective on the byte strings the program manipulates; no claim inspects the
precise escape spelling). -/
def goQuote (s : List Nat) : List Nat :=
  [34] ++ (s.flatMap fun b => if quoteEscapes b then [92, b] else [b]) ++ [34]

/-- The `String()` method of `types.Type`: `Number` formats via
`strconv.FormatFloat(…, 'g', -1, 64)`, `Bool` via `strconv.FormatBool`,
`String` via `strconv.Quote`. -/
def Value.stringRep : Value → List Nat
  | .number v => formatQ v
  | .boolRef b => formatBool b
  | .boolVal b => formatBool b
  | .string s => goQuote s

/-- A Go runtime panic (never a returned error). -/
inductive CrashErr where
  | unhandledTypeInIsTruthy
  | nilDeref
deriving DecidableEq, Repr

/-- `types.IsTruthy`: reports whether the type is truthy.

```go
switch typ := t.(type) {
case *Bool:   return typ.Value
case Number:  return typ.Value != 0
case String:  return len(typ.Value) != 0
default:      panic(...)
}
```

The input is `Option Value` because the Go parameter is an interface that may
hold `nil`.  Note the `*Bool` case: a non-pointer `types.Bool` value
(`boolVal`) matches no case and falls through to the panic. -/
def isTruthy : Option Value → Except CrashErr Bool
  | some (.boolRef b) => .ok b
  | some (.number v) => .ok (v ≠ 0)
  | some (.string s) => .ok (s.length ≠ 0)
  | some (.boolVal _) => .error .unhandledTypeInIsTruthy
  | none => .error .unhandledTypeInIsTruthy

/-- `types.Equal`: two types are equal iff both are nil, or both are non-nil
of the same `Kind` with equal `String()` representations. -/
def equalV : Option Value → Option Value → Bool
  | none, none => true
  | none, some _ => false
  | some _, none => false
  | some a, some b =>
    if a.tkind ≠ b.tkind then false
    else a.stringRep == b.stringRep

/-! ## The `interpreter` package: environment

Source: `internal/interpreter/env.go` (`Environment`). -/

/-- `interpreter.Environment`: a node in a parent-linked scope chain.
`values` embeds the Go map as an association list with unique keys
(insertion appends; lookup takes the binding for the key).
A stored value may itself be Go `nil` (declaration without initializer),
hence `Option Value`. -/
inductive Env where
  | mk (name : List Nat) (values : List (List Nat × Option Value)) (parent : Option Env)

/-- The diagnostic name of the scope. -/
def Env.name : Env → List Nat
  | .mk n _ _ => n

/-- The bindings of this scope. -/
def Env.values : Env → List (List Nat × Option Value)
  | .mk _ v _ => v

/-- The enclosing scope, if any. -/
def Env.parent : Env → Option Env
  | .mk _ _ p => p

/-- `NewEnvironment(name, parent)`. -/
def newEnvironment (name : List Nat) (parent : Option Env) : Env :=
  .mk name [] parent

/-- Error returned by `Environment.Define` / `Environment.Assign`. -/
inductive EnvErr where
  | alreadyDefined (name : List Nat)
  | assignUndefined (name : List Nat)
deriving DecidableEq, Repr

/-- `Environment.Define`: defines a variable in the current scope; if the
variable is already defined (in this scope — the parent is never consulted)
an error is returned and the environment is unchanged. -/
def Env.define (e : Env) (name : List Nat) (v : Option Value) :
    Except EnvErr Env :=
  match e.values.lookup name with
  | some _ => .error (.alreadyDefined name)
  | none => .ok (.mk e.name (e.values ++ [(name, v)]) e.parent)

/-- `Environment.Get`: looks up a name here, then through the parent chain;
returns `(value, found)` — the value itself may be Go `nil`. -/
def Env.get : Env → List Nat → Option Value × Bool
  | .mk _ values parent, name =>
    match values.lookup name with
    | some v => (v, true)
    | none =>
      match parent with
      | some p => p.get name
      | none => (none, false)

/-- `Environment.Assign`: overwrite the nearest existing binding of `name`
in the chain; error if no scope binds it. -/
def Env.assign : Env → List Nat → Option Value → Except EnvErr Env
  | .mk nm values parent, name, v =>
    match values.lookup name with
    | some _ =>
      .ok (.mk nm (values.map fun kv => if kv.1 = name then (name, v) else kv) parent)
    | none =>
      match parent with
      | some p =>
        match p.assign name v with
        | .ok p' => .ok (.mk nm values (some p'))
        | .error e => .error e
      | none => .error (.assignUndefined name)

/-! ## The `token` package

Source: the current `token` package (`Kind`, `Token`, precedence and
classification queries). -/

/-- `token.Kind`: the closed set of lexical kinds, in declaration order
(`EOF` is the zero value — the `Token` zero value therefore has kind `EOF`). -/
inductive Kind where
  | eof
  | error
  | openParen
  | closeParen
  | openBrace
  | closeBrace
  | comma
  | dot
  | minus
  | plus
  | semiColon
  | forwardSlash
  | star
  | bang
  | eq
  | bangEq
  | doubleEq
  | greaterThan
  | lessThan
  | greaterThanEq
  | lessThanEq
  | string
  | number
  | ident
  | kwIf
  | kwElse
  | kwOr
  | kwAnd
  | kwFor
  | kwWhile
  | kwTrue
  | kwFalse
  | kwClass
  | kwSuper
  | kwThis
  | kwFun
  | kwVar
  | kwNil
  | kwPrint
  | kwReturn
deriving DecidableEq, Repr

/-- The operator-precedence ladder (`PrecedenceMin … PrecedenceMax`). -/
def precedenceMin : Nat := 0

/-- `PrecedenceEquals`. -/
def precedenceEquals : Nat := 1

/-- `PrecedenceComp`. -/
def precedenceComp : Nat := 2

/-- `PrecedenceAddSubtract`. -/
def precedenceAddSubtract : Nat := 3

/-- `PrecedenceMulDivide`. -/
def precedenceMulDivide : Nat := 4

/-- `PrecedenceUnary`. -/
def precedenceUnary : Nat := 5

/-- `PrecedenceMax`. -/
def precedenceMax : Nat := 6

/-- `token.Token`: kind plus half-open byte span `[start, end)`. -/
structure Token where
  kind : Kind
  start : Nat
  stop : Nat
deriving DecidableEq, Repr

/-- The zero `token.Token` (what a receive from the lexer's closed channel
yields): kind `EOF`, offsets 0. -/
def zeroToken : Token := ⟨.eof, 0, 0⟩

/-- `Kind.Lexeme`: the fixed text of a kind (semantic category name for
`Ident`/`Number`/`String` and the sentinels). -/
def Kind.lexeme : Kind → List Nat
  | .eof => strBytes "EOF"
  | .error => strBytes "Error"
  | .openParen => strBytes "("
  | .closeParen => strBytes ")"
  | .openBrace => strBytes "\x7b"
  | .closeBrace => strBytes "\x7d"
  | .comma => strBytes ","
  | .dot => strBytes "."
  | .minus => strBytes "-"
  | .plus => strBytes "+"
  | .semiColon => strBytes ";"
  | .forwardSlash => strBytes "/"
  | .star => strBytes "*"
  | .bang => strBytes "!"
  | .eq => strBytes "="
  | .bangEq => strBytes "!="
  | .doubleEq => strBytes "=="
  | .greaterThan => strBytes ">"
  | .lessThan => strBytes "<"
  | .greaterThanEq => strBytes ">="
  | .lessThanEq => strBytes "<="
  | .string => strBytes "String"
  | .number => strBytes "Number"
  | .ident => strBytes "Ident"
  | .kwIf => strBytes "if"
  | .kwElse => strBytes "else"
  | .kwOr => strBytes "or"
  | .kwAnd => strBytes "and"
  | .kwFor => strBytes "for"
  | .kwWhile => strBytes "while"
  | .kwTrue => strBytes "true"
  | .kwFalse => strBytes "false"
  | .kwClass => strBytes "class"
  | .kwSuper => strBytes "super"
  | .kwThis => strBytes "this"
  | .kwFun => strBytes "fun"
  | .kwVar => strBytes "var"
  | .kwNil => strBytes "nil"
  | .kwPrint => strBytes "print"
  | .kwReturn => strBytes "return"

/-- `Token.Is`. -/
def Token.is (t : Token) (k : Kind) : Bool := t.kind == k

/-- `Token.IsBinaryOp`. -/
def Token.isBinaryOp (t : Token) : Bool :=
  match t.kind with
  | .kwOr | .kwAnd | .doubleEq | .bangEq | .lessThan | .lessThanEq
  | .greaterThan | .greaterThanEq | .plus | .minus | .star | .forwardSlash => true
  | _ => false

/-- `token.Keyword`: exact-string lookup of an identifier lexeme in the
keyword table; returns the keyword's kind and `ok=true`, or `(Ident, false)`. -/
def keywordLookup (ident : List Nat) : Kind × Bool :=
  if ident = strBytes "if" then (.kwIf, true)
  else if ident = strBytes "else" then (.kwElse, true)
  else if ident = strBytes "or" then (.kwOr, true)
  else if ident = strBytes "and" then (.kwAnd, true)
  else if ident = strBytes "for" then (.kwFor, true)
  else if ident = strBytes "while" then (.kwWhile, true)
  else if ident = strBytes "true" then (.kwTrue, true)
  else if ident = strBytes "false" then (.kwFalse, true)
  else if ident = strBytes "class" then (.kwClass, true)
  else if ident = strBytes "super" then (.kwSuper, true)
  else if ident = strBytes "this" then (.kwThis, true)
  else if ident = strBytes "fun" then (.kwFun, true)
  else if ident = strBytes "var" then (.kwVar, true)
  else if ident = strBytes "nil" then (.kwNil, true)
  else if ident = strBytes "print" then (.kwPrint, true)
  else if ident = strBytes "return" then (.kwReturn, true)
  else (.ident, false)

/-- `Token.Precedence`: precedence of a binary operator token
(lowest precedence for anything else). -/
def Token.precedence (t : Token) : Nat :=
  match t.kind with
  | .doubleEq | .bangEq => precedenceEquals
  | .lessThan | .lessThanEq | .greaterThan | .greaterThanEq | .kwOr | .kwAnd =>
    precedenceComp
  | .plus | .minus => precedenceAddSubtract
  | .star | .forwardSlash => precedenceMulDivide
  | _ => precedenceMin

/-! ## The `ast` package

Source: `ast` expression/statement/declaration nodes.  Go interface-typed
child fields may hold a `nil` interface (the parser returns `nil` expressions
on syntax errors); the `null` constructors embed that. -/

/-- An AST expression (`ast.Expression`); `null` is a nil interface value. -/
inductive Expr where
  | null
  | ident (name : List Nat) (tok : Token)
  | num (value : ℚ) (tok : Token)
  | bool (value : Bool) (tok : Token)
  | str (value : List Nat) (tok : Token)
  | unary (tok : Token) (value : Expr)
  | binary (left : Expr) (op : Token) (right : Expr)
  | grouped (value : Expr) (lparen rparen : Token)
deriving DecidableEq, Repr

/-- An AST declaration (`ast.Declaration`); the only variant is
`VarDeclaration{Ident, Value}`. -/
inductive Decl where
  | null
  | varDecl (identName : List Nat) (identTok : Token) (value : Expr)
deriving DecidableEq, Repr

/-- An AST statement (`ast.Statement`). -/
inductive Stmt where
  | exprStmt (value : Expr) (tok : Token)
  | printStmt (value : Expr) (tok : Token)
  | returnStmt (value : Expr) (tok : Token)
  | declStmt (value : Decl)
deriving DecidableEq, Repr

/-- `ast.Program`: the root node, an ordered sequence of statements. -/
structure Program where
  statements : List Stmt
deriving DecidableEq, Repr

/-- Any AST node, as passed to the evaluator's single `Eval` switch. -/
inductive Node where
  | prog (p : Program)
  | stmt (s : Stmt)
  | expr (e : Expr)
  | decl (d : Decl)
deriving DecidableEq, Repr

/-- `Expression.Precedence()` rendering: the fully-parenthesised form of an
expression (`ast` `Precedence implementations`).  The `null` case never
arises from a successful parse; rendered as the empty string. -/
def Expr.render : Expr → List Nat
  | .null => []
  | .ident name _ => name
  | .num v _ => formatQ v
  | .bool b _ => formatBool b
  | .str s _ => s
  | .unary tok v => strBytes "(" ++ tok.kind.lexeme ++ v.render ++ strBytes ")"
  | .binary l op r =>
    strBytes "(" ++ l.render ++ strBytes " " ++ op.kind.lexeme ++ strBytes " "
      ++ r.render ++ strBytes ")"
  | .grouped v _ _ => v.render

/-! ## The `interpreter` package: evaluator

Source: `internal/interpreter` (`Interpreter.Eval` and helpers). -/

/-- A returned evaluation error (`fmt.Errorf` values, embedded structurally). -/
inductive EvalErr where
  | unhandledNode
  | cannotNegate
  | couldNotCastNumber
  | unsupportedUnaryOp (k : Kind)
  | unsupportedBinaryOp (k : Kind)
  | invalidAddTypes
  | leftNotNumeric
  | rightNotNumeric
  | undefinedVariable (name : List Nat)
  | envErr (e : EnvErr)
deriving DecidableEq, Repr

/-- How an evaluation step can fail: a returned Go error, or a runtime panic. -/
inductive Fail where
  | failure (e : EvalErr)
  | crash (c : CrashErr)
deriving DecidableEq, Repr

/-- Interpreter state: the (single, global) environment plus the bytes
written to the stdout sink (each `print` appends one line). -/
structure InterpSt where
  env : Env
  out : List (List Nat)

/-- The initial interpreter state (`interpreter.New`): a fresh "globals"
environment, nothing printed. -/
def initSt : InterpSt := ⟨newEnvironment (strBytes "globals") none, []⟩

/-- What `fmt.Fprintln(stdout, value)` writes for a `types.Type` value:
its `String()` form (`"<nil>"` for a nil interface) plus a newline. -/
def displayValue : Option Value → List Nat
  | some v => v.stringRep ++ [10]
  | none => strBytes "<nil>" ++ [10]

/-- `checkNumeric`: both operands must be `types.Number` (a Go type
assertion, so any non-`Number` dynamic type — or nil — fails). -/
def checkNumeric : Option Value → Option Value → Except EvalErr (ℚ × ℚ)
  | some (.number l), some (.number r) => .ok (l, r)
  | some (.number _), _ => .error .rightNotNumeric
  | _, _ => .error .leftNotNumeric

/-- `evalBinaryAdd`: overloaded — if the left operand is a `String` the right
must also be one (concatenation); otherwise both must be numbers. -/
def evalBinaryAdd (left right : Option Value) : Except EvalErr Value :=
  match left with
  | some (.string l) =>
    match right with
    | some (.string r) => .ok (.string (l ++ r))
    | _ => .error .invalidAddTypes
  | _ =>
    match checkNumeric left right with
    | .ok (l, r) => .ok (.number (l + r))
    | .error e => .error e

/-- `evalEqual`: delegates to `types.Equal`, returning a canonical singleton. -/
def evalEqual (left right : Option Value) : Value :=
  if equalV left right then TrueV else FalseV

/-- `evalNotEqual`. -/
def evalNotEqual (left right : Option Value) : Value :=
  if equalV left right then FalseV else TrueV

/-- The dispatch of `evalBinaryExpression` on the operator kind, applied to
the two already-evaluated operands (`evalBinarySubtract` … `evalNotEqual`).
Comparisons return the canonical `True`/`False` singletons; `==`/`!=` never
return an error. -/
def evalBinaryOp (k : Kind) (left right : Option Value) : Except EvalErr Value :=
  match k with
  | .minus =>
    match checkNumeric left right with
    | .ok (l, r) => .ok (.number (l - r))
    | .error e => .error e
  | .plus => evalBinaryAdd left right
  | .forwardSlash =>
    match checkNumeric left right with
    | .ok (l, r) => .ok (.number (l / r))
    | .error e => .error e
  | .star =>
    match checkNumeric left right with
    | .ok (l, r) => .ok (.number (l * r))
    | .error e => .error e
  | .greaterThan =>
    match checkNumeric left right with
    | .ok (l, r) => .ok (if l > r then TrueV else FalseV)
    | .error e => .error e
  | .greaterThanEq =>
    match checkNumeric left right with
    | .ok (l, r) => .ok (if l ≥ r then TrueV else FalseV)
    | .error e => .error e
  | .lessThan =>
    match checkNumeric left right with
    | .ok (l, r) => .ok (if l < r then TrueV else FalseV)
    | .error e => .error e
  | .lessThanEq =>
    match checkNumeric left right with
    | .ok (l, r) => .ok (if l ≤ r then TrueV else FalseV)
    | .error e => .error e
  | .doubleEq => .ok (evalEqual left right)
  | .bangEq => .ok (evalNotEqual left right)
  | k => .error (.unsupportedBinaryOp k)

mutual

/-- `Interpreter.Eval` restricted to expression nodes.  Mirrors the cases of
the Go `Eval` switch that expression dynamic types can reach; `Expr.null`
(a nil `ast.Expression`) falls to the switch's default branch. -/
def evalExpr (st : InterpSt) (e : Expr) : Except Fail (Option Value) × InterpSt :=
  match e with
  | .grouped v _ _ => evalExpr st v
  | .unary tok v =>
    -- evalUnaryExpression
    match evalExpr st v with
    | (.error f, st') => (.error f, st')
    | (.ok operand, st') =>
      match tok.kind with
      | .minus =>
        -- `operand.Kind()` on a nil interface is a nil-pointer dereference
        match operand with
        | none => (.error (.crash .nilDeref), st')
        | some ov =>
          if ov.tkind ≠ .number then
            (.error (.failure .cannotNegate), st')
          else
            match ov with
            | .number n => (.ok (some (.number (-n))), st')
            | _ => (.error (.failure .couldNotCastNumber), st')
      | .bang =>
        -- returns a *fresh, non-pointer* types.Bool value
        match isTruthy operand with
        | .ok b => (.ok (some (.boolVal (!b))), st')
        | .error c => (.error (.crash c), st')
      | k => (.error (.failure (.unsupportedUnaryOp k)), st')
  | .binary l op r =>
    -- evalBinaryExpression
    match evalExpr st l with
    | (.error f, st') => (.error f, st')
    | (.ok left, st') =>
      match evalExpr st' r with
      | (.error f, st'') => (.error f, st'')
      | (.ok right, st'') =>
        match evalBinaryOp op.kind left right with
        | .ok v => (.ok (some v), st'')
        | .error e => (.error (.failure e), st'')
  | .num v _ => (.ok (some (.number v)), st)
  | .bool b _ => (.ok (some (if b then TrueV else FalseV)), st)
  | .str s _ => (.ok (some (.string s)), st)
  | .ident name _ =>
    -- evalIdent
    match st.env.get name with
    | (v, true) => (.ok v, st)
    | (_, false) => (.error (.failure (.undefinedVariable name)), st)
  | .null => (.error (.failure .unhandledNode), st)

end

/-- `evalVarDeclaration`: evaluate the initializer (unless the `Value` field
is a nil interface) and `Define` the name in the current environment. -/
def evalVarDecl (st : InterpSt) (name : List Nat) (value : Expr) :
    Except Fail (Option Value) × InterpSt :=
  match value with
  | .null =>
    -- just defining the variable, no expression
    match st.env.define name none with
    | .ok env' => (.ok none, { st with env := env' })
    | .error e => (.error (.failure (.envErr e)), st)
  | v =>
    match evalExpr st v with
    | (.error f, st') => (.error f, st')
    | (.ok value, st') =>
      match st'.env.define name value with
      | .ok env' => (.ok none, { st' with env := env' })
      | .error e => (.error (.failure (.envErr e)), st')

/-- `Interpreter.Eval` on statement nodes.  A `ReturnStatement` matches *no*
case of the Go `Eval` switch and falls through to the default branch
(`"unhandled ast.Node in Eval: %T"`). -/
def evalStmt (st : InterpSt) (s : Stmt) : Except Fail (Option Value) × InterpSt :=
  match s with
  | .exprStmt v _ => evalExpr st v
  | .declStmt d =>
    match d with
    | .varDecl name _ value => evalVarDecl st name value
    | .null => (.error (.failure .unhandledNode), st)
  | .printStmt v _ =>
    -- evalPrintStatement
    match evalExpr st v with
    | (.error f, st') => (.error f, st')
    | (.ok value, st') => (.ok none, { st' with out := st'.out ++ [displayValue value] })
  | .returnStmt _ _ => (.error (.failure .unhandledNode), st)

/-- `evalStatements`: evaluate each statement in order, stopping at the first
error; the result is the last statement's value (`nil` for an empty list). -/
def evalStatements (st : InterpSt) (acc : Option Value) (ss : List Stmt) :
    Except Fail (Option Value) × InterpSt :=
  match ss with
  | [] => (.ok acc, st)
  | s :: rest =>
    match evalStmt st s with
    | (.error f, st') => (.error f, st')
    | (.ok v, st') => evalStatements st' v rest

/-- `Interpreter.Eval`: the top-level dispatch on any AST node. -/
def evalNode (st : InterpSt) (n : Node) : Except Fail (Option Value) × InterpSt :=
  match n with
  | .prog p => evalStatements st none p.statements
  | .stmt s => evalStmt st s
  | .expr e => evalExpr st e
  | .decl d =>
    match d with
    | .varDecl name _ value => evalVarDecl st name value
    | .null => (.error (.failure .unhandledNode), st)

/-- Evaluating an expression never changes the interpreter state: no
expression form defines variables or prints. -/
theorem evalExpr_state (st : InterpSt) (e : Expr) : (evalExpr st e).2 = st := by
  induction e generalizing st with
  | null => rfl
  | ident name tok => simp only [evalExpr]; rcases st.env.get name with ⟨v, _ | _⟩ <;> simp
  | num v tok => rfl
  | bool b tok => rfl
  | str s tok => rfl
  | unary tok v ih =>
    simp only [evalExpr]
    rcases h : evalExpr st v with ⟨res, st1⟩
    have h1 : st1 = st := by simpa [h] using ih st
    subst h1
    rcases res with f | operand
    · simp
    · rcases tok.kind <;> simp
      · rcases operand with _ | ov
        · simp
        · by_cases hk : ov.tkind = .number
          · rcases ov <;> simp_all [Value.tkind]
          · simp [hk]
      · rcases isTruthy operand with b | c <;> simp
  | binary l op r ihl ihr =>
    simp only [evalExpr]
    rcases hl : evalExpr st l with ⟨resl, st1⟩
    have h1 : st1 = st := by simpa [hl] using ihl st
    subst h1
    rcases resl with f | vl
    · simp
    · rcases hr : evalExpr st1 r with ⟨resr, st2⟩
      have h2 : st2 = st1 := by simpa [hr] using ihr st1
      subst h2
      rcases resr with f | vr
      · simp [hr]
      · rcases hb : evalBinaryOp op.kind vl vr <;> simp [hr, hb]
  | grouped v lp rp ih => simpa [evalExpr] using ih st

/-- If the first list has no binding for `k`, lookup in the concatenation is
lookup in the second list. -/
theorem lookup_append_of_none {k : List Nat} :
    ∀ (l₁ l₂ : List (List Nat × Option Value)), l₁.lookup k = none →
      (l₁ ++ l₂).lookup k = l₂.lookup k := by
  intro l₁ l₂ h
  induction l₁ with
  | nil => simp
  | cons kv rest ih =>
    rcases kv with ⟨k', v'⟩
    by_cases hk : k = k'
    · simp [List.lookup, hk] at h
    · simp only [List.lookup, List.cons_append] at h ⊢
      simp only [beq_eq_false_iff_ne.mpr hk] at h ⊢
      exact ih h

/-- "Is this runtime value one of the two canonical Bool singletons
`types.True` / `types.False`?"  (The only `*types.Bool` pointers the program
ever creates are the singletons, so this is exactly "is a `*types.Bool`".) -/
def isCanonicalBool : Value → Bool
  | .boolRef _ => true
  | _ => false

/-- C1: The claim states that evaluating a `ReturnStatement` yields its
expression's value with no error whenever the expression evaluates cleanly.
This is false: the `Interpreter.Eval` switch has no `ast.ReturnStatement`
case, so a return statement falls through to the default branch and returns
an "unhandled ast.Node in Eval" error.  Concretely, `1` evaluates without
error to `Number(1)`, yet `return 1;` evaluates to an error. -/
theorem c1_return_counterexample :
    (evalNode initSt (.expr (.num 1 ⟨.number, 7, 8⟩))).1 = .ok (some (.number 1))
    ∧ (evalNode initSt
        (.stmt (.returnStmt (.num 1 ⟨.number, 7, 8⟩) ⟨.kwReturn, 0, 6⟩))).1
        = .error (.failure .unhandledNode) :=
  ⟨rfl, rfl⟩

/-- C1 (amended): evaluating any `ReturnStatement` node with `Eval` returns
the default-branch "unhandled ast.Node in Eval" error and leaves the
interpreter state unchanged — return statements are parsed but not yet
implemented in the evaluator. -/
theorem c1_return_unhandled (st : InterpSt) (v : Expr) (tok : Token) :
    evalNode st (.stmt (.returnStmt v tok)) = (.error (.failure .unhandledNode), st) :=
  rfl

/-- C3: The claim states that unary `!` always succeeds on every operand the
evaluator can produce, including the result of a previous `!`.  This is
false: the `Bang` case constructs a non-pointer `types.Bool` value, and
`IsTruthy`'s switch only matches `*types.Bool`, so that value falls through
to `IsTruthy`'s panic branch.  Concretely `!true` succeeds and produces the
value-typed `Bool(false)`, but `!!true` panics inside `IsTruthy`. -/
theorem c3_double_bang_crashes :
    (evalExpr initSt (.unary ⟨.bang, 0, 1⟩ (.bool true ⟨.kwTrue, 2, 6⟩))).1
      = .ok (some (.boolVal false))
    ∧ (evalExpr initSt
        (.unary ⟨.bang, 0, 1⟩ (.unary ⟨.bang, 1, 2⟩ (.bool true ⟨.kwTrue, 2, 6⟩)))).1
      = .error (.crash .unhandledTypeInIsTruthy) :=
  ⟨rfl, rfl⟩

/-- C5: the equality used by `==`/`!=` holds exactly when both operands are
absent (nil), or both are present with the same `Kind` and equal canonical
`String()` representations (so values of differing `Kind` are never equal);
and the `==`/`!=` dispatch always succeeds, returning a canonical Bool
singleton, regardless of operand types. -/
theorem c5_equality_semantics :
    (∀ a b : Option Value,
      equalV a b = true ↔
        (a = none ∧ b = none) ∨
        (∃ x y, a = some x ∧ b = some y ∧ x.tkind = y.tkind
          ∧ x.stringRep = y.stringRep))
    ∧ (∀ a b : Option Value,
        evalBinaryOp .doubleEq a b = .ok (if equalV a b then TrueV else FalseV)
        ∧ evalBinaryOp .bangEq a b = .ok (if equalV a b then FalseV else TrueV)) := by
  constructor
  · intro a b
    rcases a with _ | x <;> rcases b with _ | y
    · simp [equalV]
    · simp [equalV]
    · simp [equalV]
    · simp only [equalV]
      by_cases hk : x.tkind = y.tkind <;> simp [hk]
  · intro a b
    exact ⟨rfl, rfl⟩

/-- C5 witness: the characterization and the no-error dispatch at concrete
inputs — a `Number` and a canonical `Bool` are of different kinds and
compare unequal, and `==` on them succeeds. -/
theorem c5_equality_semantics_witness :
    (equalV (some (.number 1)) (some TrueV) = true ↔
      ((some (Value.number 1) : Option Value) = none ∧ (some TrueV : Option Value) = none) ∨
      (∃ x y, (some (Value.number 1) : Option Value) = some x
        ∧ (some TrueV : Option Value) = some y ∧ x.tkind = y.tkind
        ∧ x.stringRep = y.stringRep))
    ∧ evalBinaryOp .doubleEq (some (.number 1)) (some TrueV)
        = .ok (if equalV (some (.number 1)) (some TrueV) then TrueV else FalseV) :=
  ⟨c5_equality_semantics.1 (some (.number 1)) (some TrueV),
   (c5_equality_semantics.2 (some (.number 1)) (some TrueV)).1⟩

/-- C6: The claim states that every Bool the evaluator produces is one of
the two canonical singletons.  This is false: the unary `!` case constructs
a fresh non-pointer `types.Bool` value rather than returning `types.True` /
`types.False`.  Concretely `!true` yields a Bool-kind value that is not a
canonical singleton. -/
theorem c6_bang_not_canonical :
    (evalExpr initSt (.unary ⟨.bang, 0, 1⟩ (.bool true ⟨.kwTrue, 1, 5⟩))).1
      = .ok (some (.boolVal false))
    ∧ isCanonicalBool (.boolVal false) = false
    ∧ Value.tkind (.boolVal false) = .bool :=
  ⟨rfl, rfl, rfl⟩

/-- C7: `Define` binds a name in this scope only: it fails exactly when the
name already has a binding in this same scope (the parent chain is never
consulted — swapping the parent does not change the outcome), and on success
the new environment binds the name here, keeps the same parent, and a second
`Define` of the same name in the same scope fails with the already-defined
error. -/
theorem c7_define_scope (e : Env) (name : List Nat) (v w : Option Value)
    (p : Option Env) :
    ((e.define name v).isOk = (e.values.lookup name).isNone)
    ∧ ((Env.mk e.name e.values p).define name v).isOk = (e.define name v).isOk
    ∧ ∀ r, e.define name v = .ok r →
        r.values.lookup name = some v
        ∧ r.parent = e.parent ∧ r.name = e.name
        ∧ r.define name w = .error (.alreadyDefined name) := by
  obtain ⟨en, ev, ep⟩ := e
  rcases hl : List.lookup name ev with _ | v'
  · refine ⟨by simp [Env.define, Env.values, Env.name, Env.parent, hl, Except.isOk, Except.toBool],
      by simp [Env.define, Env.values, Env.name, Env.parent, hl, Except.isOk, Except.toBool], ?_⟩
    intro r hr
    simp only [Env.define, Env.values, Env.name, Env.parent, hl, Except.isOk, Except.toBool] at hr
    cases hr
    have hr' : (ev ++ [(name, v)]).lookup name = some v := by
      rw [lookup_append_of_none _ _ hl]; simp [List.lookup]
    refine ⟨hr', rfl, rfl, ?_⟩
    simp [Env.define, Env.values, Env.name, Env.parent, hr']
  · refine ⟨by simp [Env.define, Env.values, hl, Except.isOk, Except.toBool],
      by simp [Env.define, Env.values, Env.name, Env.parent, hl, Except.isOk, Except.toBool], ?_⟩
    intro r hr
    simp [Env.define, Env.values, hl] at hr

/-- C7 witness: defining `x` in a fresh global scope succeeds, after which
`x` is bound there and a second `Define` of `x` in the same scope fails. -/
theorem c7_define_scope_witness :
    (Env.mk (strBytes "globals") [(strBytes "x", none)] none).values.lookup
        (strBytes "x") = some none
    ∧ (Env.mk (strBytes "globals") [(strBytes "x", none)] none).define
        (strBytes "x") (some TrueV) = .error (.alreadyDefined (strBytes "x")) :=
  let h := (c7_define_scope (newEnvironment (strBytes "globals") none)
    (strBytes "x") none (some TrueV) none).2.2
    (Env.mk (strBytes "globals") [(strBytes "x", none)] none) rfl
  ⟨h.1, h.2.2.2⟩

/-- C10: if a var declaration's initializer expression (a real expression,
not a nil `Value` field) fails to evaluate, the declaration propagates that
error and leaves the interpreter state — in particular the environment —
unchanged: the name is not bound, lookups behave as before, and a later
`Define` of the same name behaves as before. -/
theorem c10_var_decl_failure (st : InterpSt) (name : List Nat) (init : Expr)
    (f : Fail) (w : Option Value)
    (hnn : init ≠ .null)
    (hfail : (evalExpr st init).1 = .error f) :
    evalVarDecl st name init = (.error f, st)
    ∧ (evalVarDecl st name init).2.env.get name = st.env.get name
    ∧ ((evalVarDecl st name init).2.env.define name w)
        = (st.env.define name w) := by
  have hst : (evalExpr st init).2 = st := evalExpr_state st init
  have hmain : evalVarDecl st name init = (.error f, st) := by
    rcases he : evalExpr st init with ⟨res, st'⟩
    have h1 : st' = st := by rw [← hst, he]
    have h2 : res = .error f := by rw [← hfail, he]
    subst h1; subst h2
    cases init with
    | null => exact absurd rfl hnn
    | ident n t => simp [evalVarDecl, he]
    | num q t => simp [evalVarDecl, he]
    | bool b t => simp [evalVarDecl, he]
    | str s t => simp [evalVarDecl, he]
    | unary t v => simp [evalVarDecl, he]
    | binary l o r => simp [evalVarDecl, he]
    | grouped v lp rp => simp [evalVarDecl, he]
  exact ⟨hmain, by rw [hmain], by rw [hmain]⟩

/-- C10 witness: declaring `x` with the failing initializer `nope` (an
undefined variable) in a fresh interpreter leaves the state unchanged, `x`
unbound, and a later `Define` of `x` succeeding. -/
theorem c10_var_decl_failure_witness :
    evalVarDecl initSt (strBytes "x") (.ident (strBytes "nope") ⟨.ident, 8, 12⟩)
      = (.error (.failure (.undefinedVariable (strBytes "nope"))), initSt)
    ∧ (evalVarDecl initSt (strBytes "x")
        (.ident (strBytes "nope") ⟨.ident, 8, 12⟩)).2.env.get (strBytes "x")
      = initSt.env.get (strBytes "x")
    ∧ ((evalVarDecl initSt (strBytes "x")
        (.ident (strBytes "nope") ⟨.ident, 8, 12⟩)).2.env.define (strBytes "x") none)
      = (initSt.env.define (strBytes "x") none) :=
  c10_var_decl_failure initSt (strBytes "x")
    (.ident (strBytes "nope") ⟨.ident, 8, 12⟩)
    (.failure (.undefinedVariable (strBytes "nope"))) none
    (by simp) rfl

/-! ## The `lexer` package

Source: the current `lexer` package (a state-machine scanner; `lexFn`
states, `run`, `NextToken`).  The Go lexer runs the state machine in a
goroutine feeding a buffered channel; per the design notes this is an
internal optimisation invisible to callers, so the embedding computes the
whole emitted token sequence up front and serves `NextToken` calls from it
(followed by the channel's zero `Token` once closed). -/

/-- The `utf8.RuneError` replacement character. -/
def runeError : Nat := 0xFFFD

/-- Model of Go's `utf8.DecodeRuneInString`: returns the first rune of the
byte string and its width.  Empty input gives `(RuneError, 0)`; any invalid,
surrogate, non-shortest or truncated encoding gives `(RuneError, 1)`. -/
def decodeRune : List Nat → Nat × Nat
  | [] => (runeError, 0)
  | b0 :: rest =>
    if b0 < 0x80 then (b0, 1)
    else if b0 < 0xC2 then (runeError, 1)
    else if b0 < 0xE0 then
      match rest with
      | b1 :: _ =>
        if 0x80 ≤ b1 ∧ b1 ≤ 0xBF then ((b0 - 0xC0) * 64 + (b1 - 0x80), 2)
        else (runeError, 1)
      | [] => (runeError, 1)
    else if b0 < 0xF0 then
      match rest with
      | b1 :: b2 :: _ =>
        if ((b0 = 0xE0 ∧ 0xA0 ≤ b1 ∧ b1 ≤ 0xBF)
            ∨ (b0 = 0xED ∧ 0x80 ≤ b1 ∧ b1 ≤ 0x9F)
            ∨ (b0 ≠ 0xE0 ∧ b0 ≠ 0xED ∧ 0x80 ≤ b1 ∧ b1 ≤ 0xBF))
            ∧ (0x80 ≤ b2 ∧ b2 ≤ 0xBF) then
          ((b0 - 0xE0) * 4096 + (b1 - 0x80) * 64 + (b2 - 0x80), 3)
        else (runeError, 1)
      | _ => (runeError, 1)
    else if b0 < 0xF5 then
      match rest with
      | b1 :: b2 :: b3 :: _ =>
        if ((b0 = 0xF0 ∧ 0x90 ≤ b1 ∧ b1 ≤ 0xBF)
            ∨ (b0 = 0xF4 ∧ 0x80 ≤ b1 ∧ b1 ≤ 0x8F)
            ∨ (b0 ≠ 0xF0 ∧ b0 ≠ 0xF4 ∧ 0x80 ≤ b1 ∧ b1 ≤ 0xBF))
            ∧ (0x80 ≤ b2 ∧ b2 ≤ 0xBF) ∧ (0x80 ≤ b3 ∧ b3 ≤ 0xBF) then
          ((b0 - 0xF0) * 262144 + (b1 - 0x80) * 4096 + (b2 - 0x80) * 64 + (b3 - 0x80), 4)
        else (runeError, 1)
      | _ => (runeError, 1)
    else (runeError, 1)

/-- Model of Go's `unicode.IsSpace` (White_Space property). -/
def isSpaceRune (r : Nat) : Bool :=
  if r < 0x100 then
    r = 9 || r = 10 || r = 11 || r = 12 || r = 13 || r = 32 || r = 0x85 || r = 0xA0
  else
    r = 0x1680 || (0x2000 ≤ r && r ≤ 0x200A) || r = 0x2028 || r = 0x2029
      || r = 0x202F || r = 0x205F || r = 0x3000

/-- The ranges of the Unicode `Nd` (decimal digit) category beyond ASCII
(model of Go's `unicode.Nd` range tables). -/
def ndRanges : List (Nat × Nat) :=
  [(0x0660, 0x0669), (0x06F0, 0x06F9), (0x07C0, 0x07C9), (0x0966, 0x096F),
   (0x09E6, 0x09EF), (0x0A66, 0x0A6F), (0x0AE6, 0x0AEF), (0x0B66, 0x0B6F),
   (0x0BE6, 0x0BEF), (0x0C66, 0x0C6F), (0x0CE6, 0x0CEF), (0x0D66, 0x0D6F),
   (0x0DE6, 0x0DEF), (0x0E50, 0x0E59), (0x0ED0, 0x0ED9), (0x0F20, 0x0F29),
   (0x1040, 0x1049), (0x1090, 0x1099), (0x17E0, 0x17E9), (0x1810, 0x1819),
   (0x1946, 0x194F), (0x19D0, 0x19D9), (0x1A80, 0x1A89), (0x1A90, 0x1A99),
   (0x1B50, 0x1B59), (0x1BB0, 0x1BB9), (0x1C40, 0x1C49), (0x1C50, 0x1C59),
   (0xA620, 0xA629), (0xA8D0, 0xA8D9), (0xA900, 0xA909), (0xA9D0, 0xA9D9),
   (0xA9F0, 0xA9F9), (0xAA50, 0xAA59), (0xABF0, 0xABF9), (0xFF10, 0xFF19),
   (0x104A0, 0x104A9), (0x10D30, 0x10D39), (0x11066, 0x1106F), (0x110F0, 0x110F9),
   (0x11136, 0x1113F), (0x111D0, 0x111D9), (0x112F0, 0x112F9), (0x11450, 0x11459),
   (0x114D0, 0x114D9), (0x11650, 0x11659), (0x116C0, 0x116C9), (0x11730, 0x11739),
   (0x118E0, 0x118E9), (0x11950, 0x11959), (0x11C50, 0x11C59), (0x11D50, 0x11D59),
   (0x11DA0, 0x11DA9), (0x16A60, 0x16A69), (0x16B50, 0x16B59), (0x1D7CE, 0x1D7FF),
   (0x1E140, 0x1E149), (0x1E2F0, 0x1E2F9), (0x1E950, 0x1E959), (0x1FBF0, 0x1FBF9)]

/-- Model of Go's `unicode.IsDigit` (category `Nd`). -/
def isDigitRune (r : Nat) : Bool :=
  (48 ≤ r && r ≤ 57) || ndRanges.any fun ab => ab.1 ≤ r && r ≤ ab.2

/-- The lexer's own `isAlpha`: ASCII letter or underscore. -/
def isAlphaByte (r : Nat) : Bool :=
  (97 ≤ r && r ≤ 122) || (65 ≤ r && r ≤ 90) || r = 95

/-- The lexer's own `isAlphaNumeric`: `isAlpha` or `unicode.IsDigit`. -/
def isAlphaNumericRune (r : Nat) : Bool :=
  isAlphaByte r || isDigitRune r

/-- `lexer.Lexer`: the scanner state (minus the channel, which is modelled
by the emitted token list). -/
structure Lexer where
  src : List Nat
  start : Nat
  pos : Nat
  line : Nat
  width : Nat
deriving Repr

/-- `lexer.New` (the state fields; the goroutine is modelled by `lexAll`). -/
def Lexer.new (src : List Nat) : Lexer :=
  ⟨src, 0, 0, 1, 0⟩

/-- `Lexer.atEOF`. -/
def Lexer.atEOF (l : Lexer) : Bool := l.src.length ≤ l.pos

/-- `Lexer.rest`: the source from the current position to the end. -/
def Lexer.restBytes (l : Lexer) : List Nat :=
  if l.atEOF then [] else l.src.drop l.pos

/-- `Lexer.next`: return and consume the next rune. -/
def Lexer.next (l : Lexer) : Nat × Lexer :=
  let rw := decodeRune l.restBytes
  (rw.1, { l with
    width := rw.2
    pos := l.pos + rw.2
    line := if rw.1 = 10 then l.line + 1 else l.line })

/-- `Lexer.peek`: return, but do not consume, the next rune. -/
def Lexer.peek (l : Lexer) : Nat :=
  (decodeRune l.restBytes).1

/-- `Lexer.current`: the raw byte the lexer sits on (`rune(0)` at EOF). -/
def Lexer.currByte (l : Lexer) : Nat :=
  if l.atEOF then 0 else l.src.getD l.pos 0

/-- `Lexer.backup`: step back one rune (only ever called once per `next`). -/
def Lexer.backup (l : Lexer) : Lexer :=
  let l' := { l with pos := l.pos - l.width }
  if l.width = 1 ∧ l'.currByte = 10 then { l' with line := l'.line - 1 } else l'

/-- `Lexer.skipWhitespace`: consume whitespace; on the first non-space rune,
back up and mark the token start.  Fuel-structured: the callers always pass
enough fuel (at least one more than the remaining byte count) so the fuel
never runs out on any input. -/
def skipWs : Nat → Lexer → Lexer
  | 0, l => l
  | fuel + 1, l =>
    let (r, l1) := l.next
    if isSpaceRune r then skipWs fuel l1
    else
      let l2 := l1.backup
      { l2 with start := l2.pos }

/-- `Lexer.emit`: produce a token spanning `[start, pos)` and move `start`. -/
def Lexer.emit (l : Lexer) (k : Kind) : Lexer × Token :=
  ({ l with start := l.pos }, ⟨k, l.start, l.pos⟩)

/-- The states of the scanner (`lexFn` values). -/
inductive LState where
  | start
  | lOpenParen
  | lCloseParen
  | lOpenBrace
  | lCloseBrace
  | lComma
  | lDot
  | lMinus
  | lPlus
  | lSemiColon
  | lForwardSlash
  | lStar
  | lBang
  | lBangEqual
  | lEqual
  | lDoubleEqual
  | lGreaterThan
  | lGreaterThanEqual
  | lLessThan
  | lLessThanEqual
  | lString
  | lNumber
  | lIdent
  | lUnexpectedChar
deriving DecidableEq, Repr

/-- The comment-absorbing loop of `lexForwardSlash`
(`for l.peek() != '\n' && !l.atEOF() { l.next() }`); fuel-structured. -/
def absorbComment : Nat → Lexer → Lexer
  | 0, l => l
  | fuel + 1, l =>
    if l.peek ≠ 10 ∧ ¬l.atEOF then absorbComment fuel (l.next).2 else l

/-- The body loop of `lexString`
(`for l.peek() != '"' && !l.atEOF() { l.next() }`); fuel-structured. -/
def absorbString : Nat → Lexer → Lexer
  | 0, l => l
  | fuel + 1, l =>
    if l.peek ≠ 34 ∧ ¬l.atEOF then absorbString fuel (l.next).2 else l

/-- The inner digit run of `lexNumber`'s fractional part
(`for unicode.IsDigit(l.peek()) { l.next() }`); fuel-structured. -/
def absorbDigits : Nat → Lexer → Lexer
  | 0, l => l
  | fuel + 1, l =>
    if isDigitRune l.peek then absorbDigits fuel (l.next).2 else l

/-- The outer loop of `lexNumber`:

```go
for unicode.IsDigit(l.peek()) {
    l.next()
    if l.next() == '.' && unicode.IsDigit(l.peek()) {
        l.next()
        for unicode.IsDigit(l.peek()) { l.next() }
    }
    l.backup()
}
```

fuel-structured. -/
def numberLoop : Nat → Lexer → Lexer
  | 0, l => l
  | fuel + 1, l =>
    if isDigitRune l.peek then
      let l1 := (l.next).2
      let (r2, l2) := l1.next
      let l3 :=
        if r2 = 46 ∧ isDigitRune l2.peek then
          absorbDigits (l2.src.length + 1) (l2.next).2
        else l2
      numberLoop fuel l3.backup
    else l

/-- The ident run of `lexIdent`
(`for isAlphaNumeric(l.peek()) { l.next() }`); fuel-structured. -/
def absorbIdent : Nat → Lexer → Lexer
  | 0, l => l
  | fuel + 1, l =>
    if isAlphaNumericRune l.peek then absorbIdent fuel (l.next).2 else l

/-- The dispatch on the current character in `lexStart` (its `switch`),
deciding the next state function (`none` is `lexStart`'s `return nil` on
`eof`). -/
def startDispatch (c : Nat) : Option LState :=
  if c = 40 then some .lOpenParen
  else if c = 41 then some .lCloseParen
  else if c = 123 then some .lOpenBrace
  else if c = 125 then some .lCloseBrace
  else if c = 44 then some .lComma
  else if c = 46 then some .lDot
  else if c = 45 then some .lMinus
  else if c = 43 then some .lPlus
  else if c = 59 then some .lSemiColon
  else if c = 47 then some .lForwardSlash
  else if c = 42 then some .lStar
  else if c = 33 then some .lBang
  else if c = 61 then some .lEqual
  else if c = 62 then some .lGreaterThan
  else if c = 60 then some .lLessThan
  else if c = 34 then some .lString
  else if isDigitRune c then some .lNumber
  else if isAlphaByte c then some .lIdent
  else if c = 0 then none
  else some .lUnexpectedChar

/-- One state-function call of the scanner: returns the updated lexer, the
tokens sent on the channel during the call, and the next state (`none` means
the state function returned `nil`, halting `run`'s loop).  Inner loops get
fuel `src.length + 1`, which always exceeds the bytes they can consume. -/
def stepState (s : LState) (l : Lexer) : Lexer × List Token × Option LState :=
  let innerFuel := l.src.length + 1
  match s with
  | .start =>
    let l1 := skipWs innerFuel l
    (l1, [], startDispatch l1.currByte)
  | .lOpenParen =>
    let l1 := (l.next).2
    let (l2, t) := l1.emit .openParen
    (l2, [t], some .start)
  | .lCloseParen =>
    let l1 := (l.next).2
    let (l2, t) := l1.emit .closeParen
    (l2, [t], some .start)
  | .lOpenBrace =>
    let l1 := (l.next).2
    let (l2, t) := l1.emit .openBrace
    (l2, [t], some .start)
  | .lCloseBrace =>
    let l1 := (l.next).2
    let (l2, t) := l1.emit .closeBrace
    (l2, [t], some .start)
  | .lComma =>
    let l1 := (l.next).2
    let (l2, t) := l1.emit .comma
    (l2, [t], some .start)
  | .lDot =>
    let l1 := (l.next).2
    let (l2, t) := l1.emit .dot
    (l2, [t], some .start)
  | .lMinus =>
    let l1 := (l.next).2
    let (l2, t) := l1.emit .minus
    (l2, [t], some .start)
  | .lPlus =>
    let l1 := (l.next).2
    let (l2, t) := l1.emit .plus
    (l2, [t], some .start)
  | .lSemiColon =>
    let l1 := (l.next).2
    let (l2, t) := l1.emit .semiColon
    (l2, [t], some .start)
  | .lForwardSlash =>
    let l1 := (l.next).2
    if l1.peek = 47 then
      (absorbComment innerFuel l1, [], some .start)
    else
      let (l2, t) := l1.emit .forwardSlash
      (l2, [t], some .start)
  | .lStar =>
    let l1 := (l.next).2
    let (l2, t) := l1.emit .star
    (l2, [t], some .start)
  | .lBang =>
    let l1 := (l.next).2
    if l1.peek = 61 then (l1, [], some .lBangEqual)
    else
      let (l2, t) := l1.emit .bang
      (l2, [t], some .start)
  | .lBangEqual =>
    let l1 := (l.next).2
    let (l2, t) := l1.emit .bangEq
    (l2, [t], some .start)
  | .lEqual =>
    let l1 := (l.next).2
    if l1.peek = 61 then (l1, [], some .lDoubleEqual)
    else
      let (l2, t) := l1.emit .eq
      (l2, [t], some .start)
  | .lDoubleEqual =>
    let l1 := (l.next).2
    let (l2, t) := l1.emit .doubleEq
    (l2, [t], some .start)
  | .lGreaterThan =>
    let l1 := (l.next).2
    if l1.peek = 61 then (l1, [], some .lGreaterThanEqual)
    else
      let (l2, t) := l1.emit .greaterThan
      (l2, [t], some .start)
  | .lGreaterThanEqual =>
    let l1 := (l.next).2
    let (l2, t) := l1.emit .greaterThanEq
    (l2, [t], some .start)
  | .lLessThan =>
    let l1 := (l.next).2
    if l1.peek = 61 then (l1, [], some .lLessThanEqual)
    else
      let (l2, t) := l1.emit .lessThan
      (l2, [t], some .start)
  | .lLessThanEqual =>
    let l1 := (l.next).2
    let (l2, t) := l1.emit .lessThanEq
    (l2, [t], some .start)
  | .lString =>
    let l1 := (l.next).2
    let openingQuotePos := l1.pos
    let l2 := absorbString innerFuel l1
    if l2.atEOF then
      -- l.error: emit an Error token and halt the state machine
      (l2, [⟨.error, openingQuotePos, l2.pos⟩], none)
    else
      let l3 := (l2.next).2
      let (l4, t) := l3.emit .string
      (l4, [t], some .start)
  | .lNumber =>
    let l1 := numberLoop innerFuel l
    let (l2, t) := l1.emit .number
    (l2, [t], some .start)
  | .lIdent =>
    let l1 := (l.next).2
    let l2 := absorbIdent innerFuel l1
    let text := (l2.src.drop l2.start).take (l2.pos - l2.start)
    let (l3, t) := l2.emit (keywordLookup text).1
    (l3, [t], some .start)
  | .lUnexpectedChar =>
    let l1 := (l.next).2
    (l1, [⟨.error, l1.pos - l1.width, l1.pos⟩], none)

/-- `Lexer.run`'s loop: iterate state functions until one returns `nil`.
Fuel-structured; `lexAll` passes fuel that provably always suffices, so a
`none` result would indicate divergence of the Go loop. -/
def runFuel : Nat → LState → Lexer → Option (Lexer × List Token)
  | 0, _, _ => none
  | fuel + 1, s, l =>
    match stepState s l with
    | (l', ts, none) => some (l', ts)
    | (l', ts, some s') =>
      match runFuel fuel s' l' with
      | some (l'', ts') => some (l'', ts ++ ts')
      | none => none

/-- `Lexer.run`: run the state machine from `lexStart`, then emit the final
EOF token (and close the channel).  `some ts` is the complete emitted token
sequence; `none` would mean the loop failed to finish within `2·|src| + 3`
state calls (shown impossible below). -/
def lexAll (src : List Nat) : Option (List Token) :=
  match runFuel (2 * src.length + 3) .start (Lexer.new src) with
  | some (l, ts) => some (ts ++ [⟨.eof, l.pos, l.pos⟩])
  | none => none

/-- `Lexer.NextToken`, as a function of the call index: the k-th call
returns the k-th emitted token; once the channel is closed (the sequence is
exhausted) every call returns the zero `Token`. -/
def nextTokenAt (src : List Nat) (k : Nat) : Token :=
  ((lexAll src).getD []).getD k zeroToken

/-! ### Termination of the scan (infrastructure for C8/C9)

The scanner's loops each consume at least one byte per iteration, so a byte
budget bounds every loop and `2·|src| + 3` state calls bound the whole run.
The lemmas below make that precise. -/

/-- The decoded width never exceeds the byte string's length. -/
theorem decode_width_le (bs : List Nat) : (decodeRune bs).2 ≤ bs.length := by
  match bs with
  | [] => simp [decodeRune]
  | [b0] => simp only [decodeRune]; split_ifs <;> simp
  | [b0, b1] => simp only [decodeRune]; split_ifs <;> simp
  | [b0, b1, b2] => simp only [decodeRune]; split_ifs <;> simp
  | b0 :: b1 :: b2 :: b3 :: rest => simp only [decodeRune]; split_ifs <;> simp

/-- Decoding a nonempty byte string consumes at least one byte. -/
theorem decode_width_pos (bs : List Nat) (h : bs ≠ []) : 1 ≤ (decodeRune bs).2 := by
  match bs with
  | [] => exact absurd rfl h
  | [b0] => simp only [decodeRune]; split_ifs <;> simp
  | [b0, b1] => simp only [decodeRune]; split_ifs <;> simp
  | [b0, b1, b2] => simp only [decodeRune]; split_ifs <;> simp
  | b0 :: b1 :: b2 :: b3 :: rest => simp only [decodeRune]; split_ifs <;> simp

/-- The remaining bytes are exactly `src.length - pos` long. -/
theorem restBytes_length (l : Lexer) :
    l.restBytes.length = l.src.length - l.pos := by
  simp only [Lexer.restBytes, Lexer.atEOF]
  split_ifs with h
  · simp at h ⊢; omega
  · simp

/-- `next` preserves the source. -/
theorem next_src (l : Lexer) : (l.next).2.src = l.src := rfl

/-- `next` never moves backwards. -/
theorem next_pos_le (l : Lexer) : l.pos ≤ (l.next).2.pos :=
  Nat.le_add_right _ _

/-- `next` keeps the position within the source. -/
theorem next_pos_bound (l : Lexer) (h : l.pos ≤ l.src.length) :
    (l.next).2.pos ≤ l.src.length := by
  have hw : (decodeRune l.restBytes).2 ≤ l.src.length - l.pos := by
    simpa [restBytes_length] using decode_width_le l.restBytes
  simp only [Lexer.next]
  omega

/-- Away from EOF, `next` strictly consumes. -/
theorem next_pos_lt (l : Lexer) (h : l.pos < l.src.length) :
    l.pos < (l.next).2.pos := by
  have hne : l.restBytes ≠ [] := by
    simp only [Lexer.restBytes, Lexer.atEOF]
    rw [if_neg (by simpa using Nat.not_le.mpr h)]
    simp [List.drop_eq_nil_iff]
    omega
  have := decode_width_pos _ hne
  simp only [Lexer.next]
  omega

/-- `next` records the consumed width in `pos` and `width`. -/
theorem next_pos_width (l : Lexer) :
    (l.next).2.pos = l.pos + (l.next).2.width := rfl

/-- `backup` subtracts exactly the recorded width and keeps the source. -/
theorem backup_pos (l : Lexer) :
    (l.backup).pos = l.pos - l.width ∧ (l.backup).src = l.src := by
  simp only [Lexer.backup]
  split_ifs <;> simp

/-- A nonzero current byte means the lexer is inside the source. -/
theorem currByte_ne_zero (l : Lexer) (h : l.currByte ≠ 0) :
    l.pos < l.src.length := by
  by_contra hle
  simp [Lexer.currByte, Lexer.atEOF] at h
  omega

/-- A decoded `peek` other than `RuneError` (and a decoded digit, which is
never `RuneError`) means the remaining input is nonempty. -/
theorem peek_pos_lt (l : Lexer) (h : l.peek ≠ runeError) :
    l.pos < l.src.length := by
  by_contra hle
  have : l.restBytes = [] := by
    simp only [Lexer.restBytes, Lexer.atEOF]
    rw [if_pos]
    simpa using Nat.le_of_not_lt hle
  simp [Lexer.peek, this, decodeRune] at h

/-- A digit rune is never the replacement character. -/
theorem isDigit_ne_runeError (r : Nat) (h : isDigitRune r = true) :
    r ≠ runeError := by
  intro he
  subst he
  simp [isDigitRune, ndRanges, runeError] at h

/-- `skipWs` preserves the source and keeps `pos` monotone and in bounds. -/
theorem skipWs_mono : ∀ (fuel : Nat) (l : Lexer),
    (skipWs fuel l).src = l.src ∧ l.pos ≤ (skipWs fuel l).pos
    ∧ (l.pos ≤ l.src.length → (skipWs fuel l).pos ≤ l.src.length) := by
  intro fuel
  induction fuel with
  | zero => intro l; simp [skipWs]
  | succ f ih =>
    intro l
    simp only [skipWs]
    split_ifs with hsp
    · obtain ⟨h1, h2, h3⟩ := ih (l.next).2
      refine ⟨by rw [h1, next_src], le_trans (next_pos_le l) h2, fun hb => h3 ?_⟩
      exact next_pos_bound l hb
    · have hb := backup_pos (l.next).2
      constructor
      · simp [hb.2, next_src]
      constructor
      · have : ((l.next).2.backup).pos = l.pos := by
          rw [hb.1, next_pos_width]; omega
        simp [this]
      · intro hle
        have h1 : ((l.next).2.backup).pos ≤ (l.next).2.pos := by rw [hb.1]; omega
        have h2 := next_pos_bound l hle
        simp; omega

/-- Exiting `skipWs` with leftover fuel returns to the position of the last
probe: the result equals the entry position of the final (non-space) rune. -/
theorem skipWs_pos_exact (l : Lexer) (hsp : ¬ isSpaceRune (l.next).1) (fuel : Nat) :
    (skipWs (fuel + 1) l).pos = l.pos := by
  simp only [skipWs]
  rw [if_neg (by simpa using hsp)]
  have hb := backup_pos (l.next).2
  rw [hb.1, next_pos_width]
  omega

/-- The comment loop preserves the source and keeps `pos` monotone, bounded. -/
theorem absorbComment_mono : ∀ (fuel : Nat) (l : Lexer),
    (absorbComment fuel l).src = l.src ∧ l.pos ≤ (absorbComment fuel l).pos
    ∧ (l.pos ≤ l.src.length → (absorbComment fuel l).pos ≤ l.src.length) := by
  intro fuel
  induction fuel with
  | zero => intro l; simp [absorbComment]
  | succ f ih =>
    intro l
    simp only [absorbComment]
    split_ifs with hc
    · obtain ⟨h1, h2, h3⟩ := ih (l.next).2
      exact ⟨by rw [h1, next_src], le_trans (next_pos_le l) h2,
        fun hb => h3 (next_pos_bound l hb)⟩
    · simp

/-- The string-body loop preserves the source and keeps `pos` monotone, bounded. -/
theorem absorbString_mono : ∀ (fuel : Nat) (l : Lexer),
    (absorbString fuel l).src = l.src ∧ l.pos ≤ (absorbString fuel l).pos
    ∧ (l.pos ≤ l.src.length → (absorbString fuel l).pos ≤ l.src.length) := by
  intro fuel
  induction fuel with
  | zero => intro l; simp [absorbString]
  | succ f ih =>
    intro l
    simp only [absorbString]
    split_ifs with hc
    · obtain ⟨h1, h2, h3⟩ := ih (l.next).2
      exact ⟨by rw [h1, next_src], le_trans (next_pos_le l) h2,
        fun hb => h3 (next_pos_bound l hb)⟩
    · simp

/-- The fraction-digit loop preserves the source, keeps `pos` monotone and
bounded, and never moves `pos - width` backwards (so the single `backup`
that follows it cannot back up past the first consumed byte). -/
theorem absorbDigits_inv : ∀ (fuel : Nat) (l : Lexer),
    (absorbDigits fuel l).src = l.src ∧ l.pos ≤ (absorbDigits fuel l).pos
    ∧ (l.pos ≤ l.src.length → (absorbDigits fuel l).pos ≤ l.src.length)
    ∧ l.pos - l.width ≤ (absorbDigits fuel l).pos - (absorbDigits fuel l).width := by
  intro fuel
  induction fuel with
  | zero => intro l; simp [absorbDigits]
  | succ f ih =>
    intro l
    simp only [absorbDigits]
    split_ifs with hc
    · obtain ⟨h1, h2, h3, h4⟩ := ih (l.next).2
      refine ⟨by rw [h1, next_src], le_trans (next_pos_le l) h2,
        fun hb => h3 (next_pos_bound l hb), le_trans ?_ h4⟩
      rw [next_pos_width]
      omega
    · simp

/-- The identifier loop preserves the source and keeps `pos` monotone, bounded. -/
theorem absorbIdent_mono : ∀ (fuel : Nat) (l : Lexer),
    (absorbIdent fuel l).src = l.src ∧ l.pos ≤ (absorbIdent fuel l).pos
    ∧ (l.pos ≤ l.src.length → (absorbIdent fuel l).pos ≤ l.src.length) := by
  intro fuel
  induction fuel with
  | zero => intro l; simp [absorbIdent]
  | succ f ih =>
    intro l
    simp only [absorbIdent]
    split_ifs with hc
    · obtain ⟨h1, h2, h3⟩ := ih (l.next).2
      exact ⟨by rw [h1, next_src], le_trans (next_pos_le l) h2,
        fun hb => h3 (next_pos_bound l hb)⟩
    · simp

/-- `backup` preserves the source. -/
theorem backup_src (l : Lexer) : (l.backup).src = l.src := (backup_pos l).2

/-- `backup` never moves forward. -/
theorem backup_pos_le (l : Lexer) : (l.backup).pos ≤ l.pos := by
  rw [(backup_pos l).1]; omega

/-- `backup` right after `next` restores the position (`backup` may only be
called once per `next`). -/
theorem next_backup_pos (l : Lexer) : ((l.next).2.backup).pos = l.pos := by
  rw [(backup_pos (l.next).2).1, next_pos_width]; omega

/-- A `next`, a digit run, and a `backup`: the net effect never moves before
`l`'s own position (the `backup` only undoes the last probe), stays bounded,
and preserves the source. -/
theorem absorbDigits_next_backup (m : Nat) (l : Lexer) :
    l.pos ≤ ((absorbDigits m (l.next).2).backup).pos
    ∧ (l.pos ≤ l.src.length → ((absorbDigits m (l.next).2).backup).pos ≤ l.src.length)
    ∧ ((absorbDigits m (l.next).2).backup).src = l.src := by
  obtain ⟨h1, h2, h3, h4⟩ := absorbDigits_inv m (l.next).2
  have hb := backup_pos (absorbDigits m (l.next).2)
  have hw : (l.next).2.pos - (l.next).2.width = l.pos := by
    rw [next_pos_width]; omega
  refine ⟨by rw [hb.1]; omega, ?_, by rw [hb.2, h1, next_src]⟩
  intro hble
  have hbd := h3 (by rw [next_src]; exact next_pos_bound l hble)
  rw [next_src] at hbd
  have := backup_pos_le (absorbDigits m (l.next).2)
  omega

/-- The number loop preserves the source and keeps `pos` monotone, bounded:
each iteration's net effect is at least the first `next`, because the final
`backup` only undoes the last probe. -/
theorem numberLoop_mono : ∀ (fuel : Nat) (l : Lexer),
    (numberLoop fuel l).src = l.src ∧ l.pos ≤ (numberLoop fuel l).pos
    ∧ (l.pos ≤ l.src.length → (numberLoop fuel l).pos ≤ l.src.length) := by
  intro fuel
  induction fuel with
  | zero => intro l; simp [numberLoop]
  | succ f ih =>
    intro l
    simp only [numberLoop]
    split_ifs with hd hfrac
    · -- fractional branch: digit, '.', digit, digit run, then backup
      obtain ⟨hd1, hd2, hd3⟩ :=
        absorbDigits_next_backup ((l.next.2.next.2).src.length + 1) (l.next.2.next.2)
      obtain ⟨hr1, hr2, hr3⟩ :=
        ih ((absorbDigits ((l.next.2.next.2).src.length + 1) (l.next.2.next.2.next.2)).backup)
      have hsrc2 : l.next.2.next.2.src = l.src := rfl
      simp only [hsrc2] at hd1 hd2 hd3 hr1 hr2 hr3 ⊢
      rw [hd3] at hr1 hr3
      have h01 : l.pos ≤ l.next.2.pos := next_pos_le l
      have h12 : l.next.2.pos ≤ l.next.2.next.2.pos := next_pos_le l.next.2
      refine ⟨by rw [hr1], by omega, ?_⟩
      intro hble
      have hb1 : l.next.2.pos ≤ l.src.length := next_pos_bound l hble
      have hb2 : l.next.2.next.2.pos ≤ l.src.length := next_pos_bound l.next.2 hb1
      exact hr3 (hd2 hb2)
    · -- no fractional part: digit, probe, backup
      obtain ⟨hr1, hr2, hr3⟩ := ih (l.next.2.next.2.backup)
      have hbs : l.next.2.next.2.backup.src = l.src := backup_src _
      rw [hbs] at hr1 hr3
      have hbk : (l.next.2.next.2.backup).pos = l.next.2.pos := next_backup_pos l.next.2
      have h01 : l.pos ≤ l.next.2.pos := next_pos_le l
      refine ⟨by rw [hr1], by omega, ?_⟩
      intro hble
      have hb1 : l.next.2.pos ≤ l.src.length := next_pos_bound l hble
      exact hr3 (by omega)
    · simp

/-- When the next rune is a digit the number loop strictly consumes. -/
theorem numberLoop_strict (fuel : Nat) (l : Lexer) (hd : isDigitRune l.peek = true) :
    l.pos < (numberLoop (fuel + 1) l).pos := by
  have hlt : l.pos < l.src.length := peek_pos_lt l (isDigit_ne_runeError _ hd)
  have h01 : l.pos < l.next.2.pos := next_pos_lt l hlt
  simp only [numberLoop]
  rw [if_pos hd]
  split_ifs with hfrac
  · obtain ⟨hd1, _, _⟩ :=
      absorbDigits_next_backup ((l.next.2.next.2).src.length + 1) (l.next.2.next.2)
    obtain ⟨_, hr2, _⟩ :=
      numberLoop_mono fuel
        ((absorbDigits ((l.next.2.next.2).src.length + 1) (l.next.2.next.2.next.2)).backup)
    have h12 : l.next.2.pos ≤ l.next.2.next.2.pos := next_pos_le l.next.2
    omega
  · obtain ⟨_, hr2, _⟩ := numberLoop_mono fuel (l.next.2.next.2.backup)
    have hbk : (l.next.2.next.2.backup).pos = l.next.2.pos := next_backup_pos l.next.2
    omega

/-- On ASCII bytes (digits, letters, quotes — everything the dispatch in
`lexStart` commits on) the decoded `peek` agrees with the raw current byte. -/
theorem peek_eq_currByte (l : Lexer) (h0 : l.currByte ≠ 0) (hlt : l.currByte < 0x80) :
    l.peek = l.currByte := by
  have hpos := currByte_ne_zero l h0
  have hrest : l.restBytes = l.src.drop l.pos := by
    simp only [Lexer.restBytes, Lexer.atEOF]
    rw [if_neg (by simp; omega)]
  obtain ⟨b, tl, hbt⟩ : ∃ b tl, l.src.drop l.pos = b :: tl := by
    rcases hdr : l.src.drop l.pos with _ | ⟨b, tl⟩
    · have := List.drop_eq_nil_iff.mp hdr
      omega
    · exact ⟨b, tl, rfl⟩
  have hb : b = l.currByte := by
    have h1 : l.src[l.pos]? = some b := by
      have := List.getElem?_drop l.src l.pos 0
      rw [hbt] at this
      simpa using this.symm
    simp only [Lexer.currByte, Lexer.atEOF]
    rw [if_neg (by simp; omega)]
    simp [List.getD, h1]
  subst hb
  simp only [Lexer.peek, hrest, hbt, decodeRune]
  rw [if_pos hlt]

/-- The entry condition each scanner state relies on: what `lexStart` (or
the two-character dispatch) checked before transferring to the state. -/
def stateGuard : LState → Lexer → Prop
  | .start, _ => True
  | .lOpenParen, l => l.currByte = 40
  | .lCloseParen, l => l.currByte = 41
  | .lOpenBrace, l => l.currByte = 123
  | .lCloseBrace, l => l.currByte = 125
  | .lComma, l => l.currByte = 44
  | .lDot, l => l.currByte = 46
  | .lMinus, l => l.currByte = 45
  | .lPlus, l => l.currByte = 43
  | .lSemiColon, l => l.currByte = 59
  | .lForwardSlash, l => l.currByte = 47
  | .lStar, l => l.currByte = 42
  | .lBang, l => l.currByte = 33
  | .lEqual, l => l.currByte = 61
  | .lGreaterThan, l => l.currByte = 62
  | .lLessThan, l => l.currByte = 60
  | .lBangEqual, l => l.peek = 61
  | .lDoubleEqual, l => l.peek = 61
  | .lGreaterThanEqual, l => l.peek = 61
  | .lLessThanEqual, l => l.peek = 61
  | .lString, l => l.currByte = 34
  | .lNumber, l => isDigitRune l.currByte = true
  | .lIdent, l => isAlphaByte l.currByte = true
  | .lUnexpectedChar, _ => True

/-- A nonzero current byte is one of the source's bytes. -/
theorem currByte_mem (l : Lexer) (h0 : l.currByte ≠ 0) : l.currByte ∈ l.src := by
  have hpos := currByte_ne_zero l h0
  simp only [Lexer.currByte, Lexer.atEOF] at h0 ⊢
  rw [if_neg (by simp; omega)] at h0 ⊢
  rw [List.getD_eq_getElem?_getD, List.getElem?_eq_getElem hpos]
  exact List.getElem_mem hpos

/-- Membership in a list of ranges whose lower bounds all sit at `lo` or
above forces the value to be at least `lo`. -/
theorem any_range_lower_bound (c lo : Nat) :
    ∀ (rs : List (Nat × Nat)), (∀ ab ∈ rs, lo ≤ ab.1) →
      (rs.any fun ab => ab.1 ≤ c && c ≤ ab.2) = true → lo ≤ c := by
  intro rs
  induction rs with
  | nil => intro _ h; simp at h
  | cons ab rest ih =>
    intro hlo h
    simp only [List.any_cons, Bool.or_eq_true, Bool.and_eq_true, decide_eq_true_eq] at h
    rcases h with ⟨h1, _⟩ | h
    · exact le_trans (hlo ab (by simp)) h1
    · exact ih (fun x hx => hlo x (by simp [hx])) (by simpa using h)

/-- A decimal-digit *byte* (value below 256) is an ASCII digit: the
non-ASCII `Nd` ranges all lie at `0x660` or above. -/
theorem isDigit_byte_ascii (c : Nat) (hc : c < 256) (hd : isDigitRune c = true) :
    48 ≤ c ∧ c ≤ 57 := by
  simp only [isDigitRune, Bool.or_eq_true, Bool.and_eq_true, decide_eq_true_eq] at hd
  rcases hd with ⟨h1, h2⟩ | h
  · exact ⟨h1, h2⟩
  · have := any_range_lower_bound c 0x660 ndRanges (by decide) h
    omega

/-- The state `lexStart` dispatches to always has its entry guard: the
dispatch condition on the current character is exactly the guard. -/
theorem startDispatch_guard (L : Lexer) (s' : LState)
    (hd : startDispatch L.currByte = some s') : stateGuard s' L ∧ s' ≠ .start := by
  unfold startDispatch at hd
  by_cases h1 : L.currByte = 40
  · rw [if_pos h1] at hd; cases hd; exact ⟨h1, by decide⟩
  rw [if_neg h1] at hd
  by_cases h2 : L.currByte = 41
  · rw [if_pos h2] at hd; cases hd; exact ⟨h2, by decide⟩
  rw [if_neg h2] at hd
  by_cases h3 : L.currByte = 123
  · rw [if_pos h3] at hd; cases hd; exact ⟨h3, by decide⟩
  rw [if_neg h3] at hd
  by_cases h4 : L.currByte = 125
  · rw [if_pos h4] at hd; cases hd; exact ⟨h4, by decide⟩
  rw [if_neg h4] at hd
  by_cases h5 : L.currByte = 44
  · rw [if_pos h5] at hd; cases hd; exact ⟨h5, by decide⟩
  rw [if_neg h5] at hd
  by_cases h6 : L.currByte = 46
  · rw [if_pos h6] at hd; cases hd; exact ⟨h6, by decide⟩
  rw [if_neg h6] at hd
  by_cases h7 : L.currByte = 45
  · rw [if_pos h7] at hd; cases hd; exact ⟨h7, by decide⟩
  rw [if_neg h7] at hd
  by_cases h8 : L.currByte = 43
  · rw [if_pos h8] at hd; cases hd; exact ⟨h8, by decide⟩
  rw [if_neg h8] at hd
  by_cases h9 : L.currByte = 59
  · rw [if_pos h9] at hd; cases hd; exact ⟨h9, by decide⟩
  rw [if_neg h9] at hd
  by_cases h10 : L.currByte = 47
  · rw [if_pos h10] at hd; cases hd; exact ⟨h10, by decide⟩
  rw [if_neg h10] at hd
  by_cases h11 : L.currByte = 42
  · rw [if_pos h11] at hd; cases hd; exact ⟨h11, by decide⟩
  rw [if_neg h11] at hd
  by_cases h12 : L.currByte = 33
  · rw [if_pos h12] at hd; cases hd; exact ⟨h12, by decide⟩
  rw [if_neg h12] at hd
  by_cases h13 : L.currByte = 61
  · rw [if_pos h13] at hd; cases hd; exact ⟨h13, by decide⟩
  rw [if_neg h13] at hd
  by_cases h14 : L.currByte = 62
  · rw [if_pos h14] at hd; cases hd; exact ⟨h14, by decide⟩
  rw [if_neg h14] at hd
  by_cases h15 : L.currByte = 60
  · rw [if_pos h15] at hd; cases hd; exact ⟨h15, by decide⟩
  rw [if_neg h15] at hd
  by_cases h16 : L.currByte = 34
  · rw [if_pos h16] at hd; cases hd; exact ⟨h16, by decide⟩
  rw [if_neg h16] at hd
  by_cases h17 : isDigitRune L.currByte = true
  · rw [if_pos h17] at hd; cases hd; exact ⟨h17, by decide⟩
  rw [if_neg h17] at hd
  by_cases h18 : isAlphaByte L.currByte = true
  · rw [if_pos h18] at hd; cases hd; exact ⟨h18, by decide⟩
  rw [if_neg h18] at hd
  by_cases h19 : L.currByte = 0
  · rw [if_pos h19] at hd; cases hd
  · rw [if_neg h19] at hd; cases hd; exact ⟨trivial, by decide⟩

set_option maxHeartbeats 1000000

/-- One state call of a scanner whose entry guard holds: the source is
preserved, the position stays within bounds and monotone, and any successor
state's guard holds — with strict byte consumption except out of `lexStart`.
The hypothesis `hbytes` says the source really is a byte string. -/
theorem step_progress (s : LState) (l : Lexer)
    (hbytes : ∀ b ∈ l.src, b < 256)
    (hb : l.pos ≤ l.src.length) (hg : stateGuard s l) :
    (stepState s l).1.src = l.src
    ∧ (stepState s l).1.pos ≤ l.src.length
    ∧ l.pos ≤ (stepState s l).1.pos
    ∧ (∀ s', (stepState s l).2.2 = some s' →
        stateGuard s' (stepState s l).1
        ∧ ((s = .start ∧ s' ≠ .start) ∨ l.pos < (stepState s l).1.pos)) := by
  cases s with
  | start =>
    obtain ⟨hs1, hs2, hs3⟩ := skipWs_mono (l.src.length + 1) l
    have hstep : stepState .start l
        = (skipWs (l.src.length + 1) l, [],
            startDispatch ((skipWs (l.src.length + 1) l).currByte)) := rfl
    rw [hstep]
    refine ⟨hs1, hs3 hb, hs2, ?_⟩
    intro s' hs'
    exact ⟨(startDispatch_guard _ _ hs').1, Or.inl ⟨rfl, (startDispatch_guard _ _ hs').2⟩⟩
  | lOpenParen =>
    have hgc : l.currByte = 40 := hg
    have hlt : l.pos < l.src.length := currByte_ne_zero l (by rw [hgc]; simp)
    simp only [stepState, Lexer.emit]
    refine ⟨rfl, next_pos_bound l hb, next_pos_le l, ?_⟩
    intro s' hs'; cases hs'
    exact ⟨trivial, Or.inr (next_pos_lt l hlt)⟩
  | lCloseParen =>
    have hgc : l.currByte = 41 := hg
    have hlt : l.pos < l.src.length := currByte_ne_zero l (by rw [hgc]; simp)
    simp only [stepState, Lexer.emit]
    refine ⟨rfl, next_pos_bound l hb, next_pos_le l, ?_⟩
    intro s' hs'; cases hs'
    exact ⟨trivial, Or.inr (next_pos_lt l hlt)⟩
  | lOpenBrace =>
    have hgc : l.currByte = 123 := hg
    have hlt : l.pos < l.src.length := currByte_ne_zero l (by rw [hgc]; simp)
    simp only [stepState, Lexer.emit]
    refine ⟨rfl, next_pos_bound l hb, next_pos_le l, ?_⟩
    intro s' hs'; cases hs'
    exact ⟨trivial, Or.inr (next_pos_lt l hlt)⟩
  | lCloseBrace =>
    have hgc : l.currByte = 125 := hg
    have hlt : l.pos < l.src.length := currByte_ne_zero l (by rw [hgc]; simp)
    simp only [stepState, Lexer.emit]
    refine ⟨rfl, next_pos_bound l hb, next_pos_le l, ?_⟩
    intro s' hs'; cases hs'
    exact ⟨trivial, Or.inr (next_pos_lt l hlt)⟩
  | lComma =>
    have hgc : l.currByte = 44 := hg
    have hlt : l.pos < l.src.length := currByte_ne_zero l (by rw [hgc]; simp)
    simp only [stepState, Lexer.emit]
    refine ⟨rfl, next_pos_bound l hb, next_pos_le l, ?_⟩
    intro s' hs'; cases hs'
    exact ⟨trivial, Or.inr (next_pos_lt l hlt)⟩
  | lDot =>
    have hgc : l.currByte = 46 := hg
    have hlt : l.pos < l.src.length := currByte_ne_zero l (by rw [hgc]; simp)
    simp only [stepState, Lexer.emit]
    refine ⟨rfl, next_pos_bound l hb, next_pos_le l, ?_⟩
    intro s' hs'; cases hs'
    exact ⟨trivial, Or.inr (next_pos_lt l hlt)⟩
  | lMinus =>
    have hgc : l.currByte = 45 := hg
    have hlt : l.pos < l.src.length := currByte_ne_zero l (by rw [hgc]; simp)
    simp only [stepState, Lexer.emit]
    refine ⟨rfl, next_pos_bound l hb, next_pos_le l, ?_⟩
    intro s' hs'; cases hs'
    exact ⟨trivial, Or.inr (next_pos_lt l hlt)⟩
  | lPlus =>
    have hgc : l.currByte = 43 := hg
    have hlt : l.pos < l.src.length := currByte_ne_zero l (by rw [hgc]; simp)
    simp only [stepState, Lexer.emit]
    refine ⟨rfl, next_pos_bound l hb, next_pos_le l, ?_⟩
    intro s' hs'; cases hs'
    exact ⟨trivial, Or.inr (next_pos_lt l hlt)⟩
  | lSemiColon =>
    have hgc : l.currByte = 59 := hg
    have hlt : l.pos < l.src.length := currByte_ne_zero l (by rw [hgc]; simp)
    simp only [stepState, Lexer.emit]
    refine ⟨rfl, next_pos_bound l hb, next_pos_le l, ?_⟩
    intro s' hs'; cases hs'
    exact ⟨trivial, Or.inr (next_pos_lt l hlt)⟩
  | lStar =>
    have hgc : l.currByte = 42 := hg
    have hlt : l.pos < l.src.length := currByte_ne_zero l (by rw [hgc]; simp)
    simp only [stepState, Lexer.emit]
    refine ⟨rfl, next_pos_bound l hb, next_pos_le l, ?_⟩
    intro s' hs'; cases hs'
    exact ⟨trivial, Or.inr (next_pos_lt l hlt)⟩
  | lForwardSlash =>
    have hgc : l.currByte = 47 := hg
    have hlt : l.pos < l.src.length := currByte_ne_zero l (by rw [hgc]; simp)
    obtain ⟨hc1, hc2, hc3⟩ := absorbComment_mono (l.src.length + 1) (l.next).2
    simp only [stepState, Lexer.emit]
    split_ifs with hpk
    · refine ⟨hc1, hc3 (next_pos_bound l hb), le_trans (next_pos_le l) hc2, ?_⟩
      intro s' hs'; cases hs'
      exact ⟨trivial, Or.inr (lt_of_lt_of_le (next_pos_lt l hlt) hc2)⟩
    · refine ⟨rfl, next_pos_bound l hb, next_pos_le l, ?_⟩
      intro s' hs'; cases hs'
      exact ⟨trivial, Or.inr (next_pos_lt l hlt)⟩
  | lBang =>
    have hgc : l.currByte = 33 := hg
    have hlt : l.pos < l.src.length := currByte_ne_zero l (by rw [hgc]; simp)
    simp only [stepState, Lexer.emit]
    split_ifs with hpk
    · refine ⟨rfl, next_pos_bound l hb, next_pos_le l, ?_⟩
      intro s' hs'; cases hs'
      exact ⟨hpk, Or.inr (next_pos_lt l hlt)⟩
    · refine ⟨rfl, next_pos_bound l hb, next_pos_le l, ?_⟩
      intro s' hs'; cases hs'
      exact ⟨trivial, Or.inr (next_pos_lt l hlt)⟩
  | lEqual =>
    have hgc : l.currByte = 61 := hg
    have hlt : l.pos < l.src.length := currByte_ne_zero l (by rw [hgc]; simp)
    simp only [stepState, Lexer.emit]
    split_ifs with hpk
    · refine ⟨rfl, next_pos_bound l hb, next_pos_le l, ?_⟩
      intro s' hs'; cases hs'
      exact ⟨hpk, Or.inr (next_pos_lt l hlt)⟩
    · refine ⟨rfl, next_pos_bound l hb, next_pos_le l, ?_⟩
      intro s' hs'; cases hs'
      exact ⟨trivial, Or.inr (next_pos_lt l hlt)⟩
  | lGreaterThan =>
    have hgc : l.currByte = 62 := hg
    have hlt : l.pos < l.src.length := currByte_ne_zero l (by rw [hgc]; simp)
    simp only [stepState, Lexer.emit]
    split_ifs with hpk
    · refine ⟨rfl, next_pos_bound l hb, next_pos_le l, ?_⟩
      intro s' hs'; cases hs'
      exact ⟨hpk, Or.inr (next_pos_lt l hlt)⟩
    · refine ⟨rfl, next_pos_bound l hb, next_pos_le l, ?_⟩
      intro s' hs'; cases hs'
      exact ⟨trivial, Or.inr (next_pos_lt l hlt)⟩
  | lLessThan =>
    have hgc : l.currByte = 60 := hg
    have hlt : l.pos < l.src.length := currByte_ne_zero l (by rw [hgc]; simp)
    simp only [stepState, Lexer.emit]
    split_ifs with hpk
    · refine ⟨rfl, next_pos_bound l hb, next_pos_le l, ?_⟩
      intro s' hs'; cases hs'
      exact ⟨hpk, Or.inr (next_pos_lt l hlt)⟩
    · refine ⟨rfl, next_pos_bound l hb, next_pos_le l, ?_⟩
      intro s' hs'; cases hs'
      exact ⟨trivial, Or.inr (next_pos_lt l hlt)⟩
  | lBangEqual =>
    have hgc : l.peek = 61 := hg
    have hlt : l.pos < l.src.length := peek_pos_lt l (by rw [hgc]; simp [runeError])
    simp only [stepState, Lexer.emit]
    refine ⟨rfl, next_pos_bound l hb, next_pos_le l, ?_⟩
    intro s' hs'; cases hs'
    exact ⟨trivial, Or.inr (next_pos_lt l hlt)⟩
  | lDoubleEqual =>
    have hgc : l.peek = 61 := hg
    have hlt : l.pos < l.src.length := peek_pos_lt l (by rw [hgc]; simp [runeError])
    simp only [stepState, Lexer.emit]
    refine ⟨rfl, next_pos_bound l hb, next_pos_le l, ?_⟩
    intro s' hs'; cases hs'
    exact ⟨trivial, Or.inr (next_pos_lt l hlt)⟩
  | lGreaterThanEqual =>
    have hgc : l.peek = 61 := hg
    have hlt : l.pos < l.src.length := peek_pos_lt l (by rw [hgc]; simp [runeError])
    simp only [stepState, Lexer.emit]
    refine ⟨rfl, next_pos_bound l hb, next_pos_le l, ?_⟩
    intro s' hs'; cases hs'
    exact ⟨trivial, Or.inr (next_pos_lt l hlt)⟩
  | lLessThanEqual =>
    have hgc : l.peek = 61 := hg
    have hlt : l.pos < l.src.length := peek_pos_lt l (by rw [hgc]; simp [runeError])
    simp only [stepState, Lexer.emit]
    refine ⟨rfl, next_pos_bound l hb, next_pos_le l, ?_⟩
    intro s' hs'; cases hs'
    exact ⟨trivial, Or.inr (next_pos_lt l hlt)⟩
  | lString =>
    have hgc : l.currByte = 34 := hg
    have hlt : l.pos < l.src.length := currByte_ne_zero l (by rw [hgc]; simp)
    obtain ⟨ha1, ha2, ha3⟩ := absorbString_mono (l.src.length + 1) (l.next).2
    simp only [stepState, Lexer.emit]
    split_ifs with heof
    · refine ⟨ha1, ha3 (next_pos_bound l hb), le_trans (next_pos_le l) ha2, ?_⟩
      intro s' hs'; cases hs'
    · have hb2 : (absorbString (l.src.length + 1) (l.next).2).pos ≤ l.src.length :=
        ha3 (next_pos_bound l hb)
      have hsrcS : (absorbString (l.src.length + 1) (l.next).2).src = l.src := ha1
      have hb3 : ((absorbString (l.src.length + 1) (l.next).2).next).2.pos ≤ l.src.length := by
        have := next_pos_bound (absorbString (l.src.length + 1) (l.next).2)
          (by rw [hsrcS]; exact hb2)
        rwa [hsrcS] at this
      refine ⟨ha1, hb3, ?_, ?_⟩
      · exact le_trans (next_pos_le l) (le_trans ha2 (next_pos_le _))
      · intro s' hs'; cases hs'
        exact ⟨trivial, Or.inr (lt_of_lt_of_le (next_pos_lt l hlt)
          (le_trans ha2 (next_pos_le _)))⟩
  | lNumber =>
    have hgc : isDigitRune l.currByte = true := hg
    have h0 : l.currByte ≠ 0 := by
      intro h; rw [h] at hgc; exact absurd hgc (by decide)
    have hc256 : l.currByte < 256 := hbytes _ (currByte_mem l h0)
    obtain ⟨hd1, hd2⟩ := isDigit_byte_ascii _ hc256 hgc
    have hpeek : l.peek = l.currByte := peek_eq_currByte l h0 (by omega)
    have hpd : isDigitRune l.peek = true := by rw [hpeek]; exact hgc
    have hstrict := numberLoop_strict l.src.length l hpd
    obtain ⟨hn1, hn2, hn3⟩ := numberLoop_mono (l.src.length + 1) l
    simp only [stepState, Lexer.emit]
    refine ⟨hn1, hn3 hb, hn2, ?_⟩
    intro s' hs'; cases hs'
    exact ⟨trivial, Or.inr hstrict⟩
  | lIdent =>
    have hgc : isAlphaByte l.currByte = true := hg
    have h0 : l.currByte ≠ 0 := by
      intro h; rw [h] at hgc; exact absurd hgc (by decide)
    have hlt := currByte_ne_zero l h0
    obtain ⟨hi1, hi2, hi3⟩ := absorbIdent_mono (l.src.length + 1) (l.next).2
    simp only [stepState, Lexer.emit]
    refine ⟨hi1, hi3 (next_pos_bound l hb), le_trans (next_pos_le l) hi2, ?_⟩
    intro s' hs'; cases hs'
    exact ⟨trivial, Or.inr (lt_of_lt_of_le (next_pos_lt l hlt) hi2)⟩
  | lUnexpectedChar =>
    simp only [stepState]
    refine ⟨rfl, next_pos_bound l hb, next_pos_le l, ?_⟩
    intro s' hs'; cases hs'

set_option maxHeartbeats 200000

/-- With more fuel than twice the remaining byte count, the scanner's state
machine always halts: every loop iteration consumes input or ends the scan. -/
theorem runFuel_isSome : ∀ (fuel : Nat) (s : LState) (l : Lexer),
    (∀ b ∈ l.src, b < 256) → l.pos ≤ l.src.length → stateGuard s l →
    2 * (l.src.length - l.pos) + (if s = .start then 1 else 0) < fuel →
    (runFuel fuel s l).isSome := by
  intro fuel
  induction fuel with
  | zero => intro s l _ _ _ hm; omega
  | succ f ih =>
    intro s l hbytes hb hg hm
    obtain ⟨hp1, hp2, hp3, hp4⟩ := step_progress s l hbytes hb hg
    simp only [runFuel]
    rcases hstep : stepState s l with ⟨l', ts, n?⟩
    rcases n? with _ | s'
    · simp
    · simp only [hstep] at hp1 hp2 hp3
      obtain ⟨hg', hor⟩ := hp4 s' (by rw [hstep])
      simp only [hstep] at hg' hor
      have hbytes' : ∀ b ∈ l'.src, b < 256 := by rw [hp1]; exact hbytes
      have hb' : l'.pos ≤ l'.src.length := by rw [hp1]; exact hp2
      have hm' : 2 * (l'.src.length - l'.pos) + (if s' = .start then 1 else 0) < f := by
        rw [hp1]
        rcases hor with ⟨hs, hne⟩ | hlt
        · subst hs
          rw [if_pos rfl] at hm
          rw [if_neg hne]
          omega
        · split_ifs at hm ⊢ <;> omega
      have := ih s' l' hbytes' hb' hg' hm'
      rcases hrf : runFuel f s' l' with _ | p
      · rw [hrf] at this; simp at this
      · simp [hrf]

/-- The complete scan of any byte string halts within the standard fuel and
its token sequence ends with the final EOF token. -/
theorem lexAll_eof (src : List Nat) (hbytes : ∀ b ∈ src, b < 256) :
    ∃ ts t, lexAll src = some ts ∧ ts ≠ [] ∧ ts.getLast? = some t
      ∧ t.kind = .eof := by
  have hsome := runFuel_isSome (2 * src.length + 3) .start (Lexer.new src)
    hbytes (by simp [Lexer.new]) trivial (by simp [Lexer.new])
  rcases hrf : runFuel (2 * src.length + 3) .start (Lexer.new src) with _ | ⟨l, ts⟩
  · rw [hrf] at hsome; simp at hsome
  · refine ⟨ts ++ [⟨.eof, l.pos, l.pos⟩], ⟨.eof, l.pos, l.pos⟩, ?_, by simp, ?_, rfl⟩
    · simp [lexAll, hrf]
    · simp

/-- The keyword table never yields a sentinel kind. -/
theorem keywordLookup_ne (bs : List Nat) :
    (keywordLookup bs).1 ≠ .eof ∧ (keywordLookup bs).1 ≠ .error := by
  unfold keywordLookup
  by_cases h1 : bs = strBytes "if"
  · rw [if_pos h1]; exact ⟨by decide, by decide⟩
  rw [if_neg h1]
  by_cases h2 : bs = strBytes "else"
  · rw [if_pos h2]; exact ⟨by decide, by decide⟩
  rw [if_neg h2]
  by_cases h3 : bs = strBytes "or"
  · rw [if_pos h3]; exact ⟨by decide, by decide⟩
  rw [if_neg h3]
  by_cases h4 : bs = strBytes "and"
  · rw [if_pos h4]; exact ⟨by decide, by decide⟩
  rw [if_neg h4]
  by_cases h5 : bs = strBytes "for"
  · rw [if_pos h5]; exact ⟨by decide, by decide⟩
  rw [if_neg h5]
  by_cases h6 : bs = strBytes "while"
  · rw [if_pos h6]; exact ⟨by decide, by decide⟩
  rw [if_neg h6]
  by_cases h7 : bs = strBytes "true"
  · rw [if_pos h7]; exact ⟨by decide, by decide⟩
  rw [if_neg h7]
  by_cases h8 : bs = strBytes "false"
  · rw [if_pos h8]; exact ⟨by decide, by decide⟩
  rw [if_neg h8]
  by_cases h9 : bs = strBytes "class"
  · rw [if_pos h9]; exact ⟨by decide, by decide⟩
  rw [if_neg h9]
  by_cases h10 : bs = strBytes "super"
  · rw [if_pos h10]; exact ⟨by decide, by decide⟩
  rw [if_neg h10]
  by_cases h11 : bs = strBytes "this"
  · rw [if_pos h11]; exact ⟨by decide, by decide⟩
  rw [if_neg h11]
  by_cases h12 : bs = strBytes "fun"
  · rw [if_pos h12]; exact ⟨by decide, by decide⟩
  rw [if_neg h12]
  by_cases h13 : bs = strBytes "var"
  · rw [if_pos h13]; exact ⟨by decide, by decide⟩
  rw [if_neg h13]
  by_cases h14 : bs = strBytes "nil"
  · rw [if_pos h14]; exact ⟨by decide, by decide⟩
  rw [if_neg h14]
  by_cases h15 : bs = strBytes "print"
  · rw [if_pos h15]; exact ⟨by decide, by decide⟩
  rw [if_neg h15]
  by_cases h16 : bs = strBytes "return"
  · rw [if_pos h16]; exact ⟨by decide, by decide⟩
  rw [if_neg h16]
  exact ⟨by decide, by decide⟩

/-- Tokens sent during one state call: none, or a single token that is never
`EOF`, and is `Error` only when the state function halts the machine. -/
theorem stepState_tokens_shape (s : LState) (l : Lexer) :
    (stepState s l).2.1 = []
    ∨ ∃ t, (stepState s l).2.1 = [t] ∧ t.kind ≠ .eof
        ∧ (t.kind = .error → (stepState s l).2.2 = none) := by
  cases s with
  | start => exact Or.inl rfl
  | lOpenParen =>
    exact Or.inr ⟨_, rfl, fun h => Kind.noConfusion h, fun h => Kind.noConfusion h⟩
  | lCloseParen =>
    exact Or.inr ⟨_, rfl, fun h => Kind.noConfusion h, fun h => Kind.noConfusion h⟩
  | lOpenBrace =>
    exact Or.inr ⟨_, rfl, fun h => Kind.noConfusion h, fun h => Kind.noConfusion h⟩
  | lCloseBrace =>
    exact Or.inr ⟨_, rfl, fun h => Kind.noConfusion h, fun h => Kind.noConfusion h⟩
  | lComma =>
    exact Or.inr ⟨_, rfl, fun h => Kind.noConfusion h, fun h => Kind.noConfusion h⟩
  | lDot =>
    exact Or.inr ⟨_, rfl, fun h => Kind.noConfusion h, fun h => Kind.noConfusion h⟩
  | lMinus =>
    exact Or.inr ⟨_, rfl, fun h => Kind.noConfusion h, fun h => Kind.noConfusion h⟩
  | lPlus =>
    exact Or.inr ⟨_, rfl, fun h => Kind.noConfusion h, fun h => Kind.noConfusion h⟩
  | lSemiColon =>
    exact Or.inr ⟨_, rfl, fun h => Kind.noConfusion h, fun h => Kind.noConfusion h⟩
  | lStar =>
    exact Or.inr ⟨_, rfl, fun h => Kind.noConfusion h, fun h => Kind.noConfusion h⟩
  | lForwardSlash =>
    simp only [stepState, Lexer.emit]
    split_ifs
    · exact Or.inl rfl
    · exact Or.inr ⟨_, rfl, fun h => Kind.noConfusion h, fun h => Kind.noConfusion h⟩
  | lBang =>
    simp only [stepState, Lexer.emit]
    split_ifs
    · exact Or.inl rfl
    · exact Or.inr ⟨_, rfl, fun h => Kind.noConfusion h, fun h => Kind.noConfusion h⟩
  | lBangEqual =>
    exact Or.inr ⟨_, rfl, fun h => Kind.noConfusion h, fun h => Kind.noConfusion h⟩
  | lEqual =>
    simp only [stepState, Lexer.emit]
    split_ifs
    · exact Or.inl rfl
    · exact Or.inr ⟨_, rfl, fun h => Kind.noConfusion h, fun h => Kind.noConfusion h⟩
  | lDoubleEqual =>
    exact Or.inr ⟨_, rfl, fun h => Kind.noConfusion h, fun h => Kind.noConfusion h⟩
  | lGreaterThan =>
    simp only [stepState, Lexer.emit]
    split_ifs
    · exact Or.inl rfl
    · exact Or.inr ⟨_, rfl, fun h => Kind.noConfusion h, fun h => Kind.noConfusion h⟩
  | lGreaterThanEqual =>
    exact Or.inr ⟨_, rfl, fun h => Kind.noConfusion h, fun h => Kind.noConfusion h⟩
  | lLessThan =>
    simp only [stepState, Lexer.emit]
    split_ifs
    · exact Or.inl rfl
    · exact Or.inr ⟨_, rfl, fun h => Kind.noConfusion h, fun h => Kind.noConfusion h⟩
  | lLessThanEqual =>
    exact Or.inr ⟨_, rfl, fun h => Kind.noConfusion h, fun h => Kind.noConfusion h⟩
  | lString =>
    simp only [stepState, Lexer.emit]
    split_ifs
    · exact Or.inr ⟨_, rfl, fun h => Kind.noConfusion h, fun _ => rfl⟩
    · exact Or.inr ⟨_, rfl, fun h => Kind.noConfusion h, fun h => Kind.noConfusion h⟩
  | lNumber =>
    exact Or.inr ⟨_, rfl, fun h => Kind.noConfusion h, fun h => Kind.noConfusion h⟩
  | lIdent =>
    refine Or.inr ⟨_, rfl, ?_, ?_⟩
    · exact (keywordLookup_ne _).1
    · intro h
      exact absurd h (keywordLookup_ne _).2
  | lUnexpectedChar =>
    exact Or.inr ⟨_, rfl, fun h => Kind.noConfusion h, fun _ => rfl⟩

/-- Over a whole run: no emitted token is `EOF`, and an `Error` token can
only be the very last emitted token (the scan halts right after it). -/
theorem runFuel_shape : ∀ (fuel : Nat) (s : LState) (l l' : Lexer) (ts : List Token),
    runFuel fuel s l = some (l', ts) →
    (∀ t ∈ ts, t.kind ≠ .eof) ∧ (∀ t ∈ ts.dropLast, t.kind ≠ .error) := by
  intro fuel
  induction fuel with
  | zero => intro s l l' ts h; simp [runFuel] at h
  | succ f ih =>
    intro s l l' ts h
    rcases hstep : stepState s l with ⟨l1, ts0, n?⟩
    have hshape := stepState_tokens_shape s l
    rw [hstep] at hshape
    rcases n? with _ | s1
    · have hrun : runFuel (f + 1) s l = some (l1, ts0) := by
        simp [runFuel, hstep]
      rw [hrun] at h
      injection h with h2
      have hts : ts0 = ts := congrArg Prod.snd h2
      rw [← hts]
      rcases hshape with h0 | ⟨t, h0, hne, _⟩
      · have h0' : ts0 = [] := h0
        rw [h0']; simp
      · have h0' : ts0 = [t] := h0
        rw [h0']
        exact ⟨by simpa using hne, by simp⟩
    · have hrun : runFuel (f + 1) s l
          = match runFuel f s1 l1 with
            | some (l2, ts1) => some (l2, ts0 ++ ts1)
            | none => none := by
        simp [runFuel, hstep]
      rw [hrun] at h
      rcases hr : runFuel f s1 l1 with _ | ⟨l2, ts1⟩
      · rw [hr] at h; cases h
      · rw [hr] at h
        injection h with h2
        have hts : ts0 ++ ts1 = ts := congrArg Prod.snd h2
        rw [← hts]
        obtain ⟨ih1, ih2⟩ := ih s1 l1 l2 ts1 hr
        rcases hshape with h0 | ⟨t, h0, hne, herr⟩
        · have h0' : ts0 = [] := h0
          rw [h0']
          simpa using ⟨ih1, ih2⟩
        · have h0' : ts0 = [t] := h0
          rw [h0']
          have hterr : t.kind ≠ .error := by
            intro hk
            exact Option.noConfusion (herr hk)
          refine ⟨?_, ?_⟩
          · intro u hu
            rcases List.mem_append.mp hu with hu | hu
            · rcases List.mem_singleton.mp hu with rfl
              exact hne
            · exact ih1 u hu
          · rcases ts1 with _ | ⟨a, rest⟩
            · simp
            · intro u hu
              rw [show ([t] ++ a :: rest : List Token) = t :: a :: rest from rfl,
                List.dropLast_cons₂] at hu
              rcases List.mem_cons.mp hu with rfl | hu
              · exact hterr
              · exact ih2 u (by simpa using hu)

/-- C8: for every finite byte-string input — including invalid UTF-8 — the
scan terminates (the state machine halts within its fuel, so every
`NextToken` call returns) and the emitted token sequence is finite, nonempty,
and ends with an `EOF` token. -/
theorem c8_lexer_terminates_ends_eof (src : List Nat)
    (hbytes : ∀ b ∈ src, b < 256) :
    ∃ ts t, lexAll src = some ts ∧ ts ≠ [] ∧ ts.getLast? = some t
      ∧ t.kind = .eof :=
  lexAll_eof src hbytes

/-- C8 witness: the scan of the concrete source `var x = 2;` terminates with
an EOF-terminated token list. -/
theorem c8_lexer_terminates_ends_eof_witness :
    (∀ b ∈ strBytes "var x = 2;", b < 256)
    ∧ ∃ ts t, lexAll (strBytes "var x = 2;") = some ts ∧ ts ≠ []
        ∧ ts.getLast? = some t ∧ t.kind = .eof :=
  ⟨by decide, c8_lexer_terminates_ends_eof (strBytes "var x = 2;") (by decide)⟩

/-- C9: The claim states that once `NextToken` returns `EOF` *or `Error`*,
every later call returns an equivalent terminal token of the same kind.
This is false for `Error`: emitting an `Error` token halts the state
machine, after which `run` sends the final `EOF` and closes the channel, so
the call right after an `Error` yields an `EOF`-kind token, not another
`Error`.  Concretely on the source `@`: call 0 yields `Error`, call 1
yields `EOF`. -/
theorem c9_error_tail_counterexample :
    (nextTokenAt (strBytes "@") 0).kind = .error
    ∧ (nextTokenAt (strBytes "@") 1).kind = .eof
    ∧ ((nextTokenAt (strBytes "@") 1).kind == Kind.error) = false :=
  ⟨rfl, rfl, rfl⟩

/-- C9 (amended): the terminal tail that actually holds.  Once `NextToken`
returns an `EOF`-kind token, every later call returns an `EOF`-kind token;
and once it returns an `Error`-kind token, every *later* call returns an
`EOF`-kind token (the `Error` itself is never repeated). -/
theorem c9_terminal_tail_amended (src : List Nat)
    (k j : Nat) (hkj : k ≤ j) :
    ((nextTokenAt src k).kind = .eof → (nextTokenAt src j).kind = .eof)
    ∧ ((nextTokenAt src k).kind = .error → k < j →
        (nextTokenAt src j).kind = .eof) := by
  rcases hrf : runFuel (2 * src.length + 3) .start (Lexer.new src) with _ | ⟨l, body⟩
  · have hall : ∀ i, nextTokenAt src i = zeroToken := by
      intro i; simp [nextTokenAt, lexAll, hrf]
    constructor
    · intro _; rw [hall j]; rfl
    · intro hk; rw [hall k] at hk; exact absurd hk (by decide)
  · have hlexa : lexAll src = some (body ++ [Token.mk Kind.eof l.pos l.pos]) := by
      simp [lexAll, hrf]
    obtain ⟨hbody_eof, hbody_err⟩ := runFuel_shape _ _ _ _ _ hrf
    have hstream : ∀ i, nextTokenAt src i
        = (body ++ [Token.mk Kind.eof l.pos l.pos]).getD i zeroToken := by
      intro i; simp [nextTokenAt, hlexa]
    have hF1 : ∀ i, body.length ≤ i → (nextTokenAt src i).kind = .eof := by
      intro i hi
      rw [hstream i, List.getD_append_right _ _ _ _ hi]
      rcases Nat.lt_or_ge (i - body.length) 1 with h1 | h1
      · have h0 : i - body.length = 0 := by omega
        rw [h0]; rfl
      · rw [List.getD_eq_default]
        · rfl
        · simpa using h1
    constructor
    · intro hk
      rcases Nat.lt_or_ge k body.length with hkl | hkl
      · exfalso
        have hkval : nextTokenAt src k = body[k] := by
          rw [hstream k, List.getD_append _ _ _ _ hkl, List.getD_eq_getElem _ _ hkl]
        have hmem : body[k] ∈ body := List.getElem_mem hkl
        have := hbody_eof _ hmem
        rw [hkval] at hk
        exact this hk
      · exact hF1 j (le_trans hkl hkj)
    · intro hk hklt
      rcases Nat.lt_or_ge k body.length with hkl | hkl
      · have hkval : nextTokenAt src k = body[k] := by
          rw [hstream k, List.getD_append _ _ _ _ hkl, List.getD_eq_getElem _ _ hkl]
        have hk_last : k + 1 = body.length := by
          by_contra hcon
          have hdl : k < body.dropLast.length := by
            rw [List.length_dropLast]; omega
          have hmem : body[k] ∈ body.dropLast := by
            have hgd := List.getElem_dropLast body k hdl
            rw [← hgd]
            exact List.getElem_mem hdl
          have := hbody_err _ hmem
          rw [hkval] at hk
          exact this hk
        exact hF1 j (by omega)
      · have heof := hF1 k hkl
        rw [hk] at heof
        exact absurd heof (by decide)

/-- C9 witness for the amended theorem: on the source `@`, after the `EOF`
at call 1 the subsequent call also yields an `EOF`-kind token. -/
theorem c9_terminal_tail_amended_witness :
    (nextTokenAt (strBytes "@") 2).kind = .eof :=
  (c9_terminal_tail_amended (strBytes "@") 1 2 (by decide)).1 rfl

/-! ## The `parser` package

Source: the current `parser` package (recursive-descent, precedence-climbing
parser with two-token lookahead and error collection).  The trace machinery
is modelled as switched off (`trace = false`): it only writes diagnostics.
All recursion is fuel-structured; `parse` passes fuel that always exceeds
the number of tokens plus the possible nesting depth, so the fuel can never
run out on a real parse (each mutual call follows at least one `advance`). -/

/-- A byte-slice `src[a:b]` of the source. -/
def slice (src : List Nat) (a b : Nat) : List Nat :=
  (src.drop a).take (b - a)

/-- The structured message of a recorded syntax error (the `fmt.Sprintf`
formats of the Go code, kept as data). -/
inductive PMsg where
  | expectedGotEOF (want : Kind) (got : Kind)
  | expectedGot (want : Kind) (got : Kind) (lexeme : List Nat)
  | unhandledTokenInExpression (k : Kind)
  | invalidBinaryOp (k : Kind)
  | unhandledTokenInDeclaration (k : Kind)
  | invalidNumberLiteral (lexeme : List Nat)
  | invalidBoolLiteral (lexeme : List Nat)
  | invalidStringLiteral (lexeme : List Nat)
deriving DecidableEq, Repr

/-- `parser.SyntaxError`: file name, message, offending token, line, column. -/
structure SyntaxError where
  file : String
  msg : PMsg
  tok : Token
  line : Nat
  col : Nat
deriving DecidableEq, Repr

/-- `parser.Parser`: two-token lookahead over the lexer's token stream.
The stream (`tokeniser.NextToken`) is the pre-computed emitted sequence
followed by the closed channel's zero tokens, indexed by `idx`. -/
structure Parser where
  name : String
  src : List Nat
  toks : List Token
  idx : Nat
  errs : List SyntaxError
  current : Token
  next : Token
deriving Repr

/-- The token the `idx`-th `NextToken` call returns. -/
def Parser.tokenAt (p : Parser) (i : Nat) : Token :=
  p.toks.getD i zeroToken

/-- `Parser.advance`: shift `next` into `current`, pull a fresh token. -/
def Parser.advance (p : Parser) : Parser :=
  { p with current := p.next, next := p.tokenAt p.idx, idx := p.idx + 1 }

/-- `parser.New`: construct the parser and advance twice so `current` and
`next` are set. -/
def parserNew (name : String) (src : List Nat) : Parser :=
  (Parser.advance (Parser.advance
    ⟨name, src, (lexAll src).getD [], 0, [], zeroToken, zeroToken⟩))

/-- The newline scan of `Parser.position`: walk the source rune by rune
(Go `for index, byt := range p.src`), counting lines and remembering the
offset just past the last newline, stopping at `stop`. -/
def posScan (src : List Nat) (stop : Nat) : Nat → Nat → Nat → Nat → Nat × Nat
  | 0, _, line, last => (line, last)
  | fuel + 1, idx, line, last =>
    if src.length ≤ idx then (line, last)
    else if stop ≤ idx then (line, last)
    else
      let rw := decodeRune (src.drop idx)
      if rw.1 = 10 then posScan src stop fuel (idx + rw.2) (line + 1) (idx + 1)
      else posScan src stop fuel (idx + rw.2) line last

/-- `Parser.position`: line and column of the parser's current position;
if `next` is EOF the position points just past the current token. -/
def Parser.position (p : Parser) : Nat × Nat :=
  let ll := posScan p.src p.current.start (p.src.length + 1) 0 1 0
  let pos := if p.next.is .eof then p.current.stop else p.current.start
  (ll.1, 1 + pos - ll.2)

/-- `Parser.syntaxError`: record a syntax error with position info. -/
def Parser.syntaxError (p : Parser) (m : PMsg) : Parser :=
  let lc := p.position
  { p with errs := p.errs ++ [⟨p.name, m, p.current, lc.1, lc.2⟩] }

/-- `Parser.expect`: if `next` is of the wanted kind, advance onto it;
otherwise record a syntax error (with a special message when `next` is EOF)
and do not advance. -/
def Parser.expect (p : Parser) (k : Kind) : Parser :=
  if p.next.is k then p.advance
  else if p.next.is .eof then
    p.syntaxError (.expectedGotEOF k p.next.kind)
  else
    p.syntaxError (.expectedGot k p.next.kind (slice p.src p.next.start p.next.stop))

/-- Model of `strconv.ParseFloat(…, 64)` restricted to the decimal forms
the lexer's `Number` lexemes can take (digit runs with at most one dot);
anything else — e.g. the multi-dot lexemes the number scanner can emit —
fails, exactly as `ParseFloat` does. -/
def parseFloatBytes (bs : List Nat) : Option ℚ :=
  let isDigits : List Nat → Bool := fun l => l.all fun b => 48 ≤ b && b ≤ 57
  let toNat : List Nat → Nat := fun l => l.foldl (fun acc b => acc * 10 + (b - 48)) 0
  if bs.isEmpty then none
  else
    match bs.splitOn 46 with
    | [ip] => if isDigits ip then some (toNat ip : ℚ) else none
    | [ip, fp] =>
      if isDigits ip ∧ isDigits fp ∧ ¬(ip.isEmpty ∧ fp.isEmpty) then
        some ((toNat ip : ℚ) + (toNat fp : ℚ) / ((10 : ℚ) ^ fp.length))
      else none
    | _ => none

/-- Model of `strconv.ParseBool`. -/
def parseBoolBytes (bs : List Nat) : Option Bool :=
  if bs = strBytes "1" ∨ bs = strBytes "t" ∨ bs = strBytes "T"
      ∨ bs = strBytes "TRUE" ∨ bs = strBytes "true" ∨ bs = strBytes "True" then
    some true
  else if bs = strBytes "0" ∨ bs = strBytes "f" ∨ bs = strBytes "F"
      ∨ bs = strBytes "FALSE" ∨ bs = strBytes "false" ∨ bs = strBytes "False" then
    some false
  else none

/-- One escape step of `strconv.Unquote` (the escapes a Lox string can
contain; anything else fails). -/
def unquoteBody : Nat → List Nat → Option (List Nat)
  | 0, _ => none
  | _ + 1, [] => some []
  | fuel + 1, b :: rest =>
    if b = 34 ∨ b = 10 then none
    else if b = 92 then
      match rest with
      | 110 :: rest2 => (unquoteBody fuel rest2).map fun r => 10 :: r
      | 116 :: rest2 => (unquoteBody fuel rest2).map fun r => 9 :: r
      | 114 :: rest2 => (unquoteBody fuel rest2).map fun r => 13 :: r
      | 92 :: rest2 => (unquoteBody fuel rest2).map fun r => 92 :: r
      | 34 :: rest2 => (unquoteBody fuel rest2).map fun r => 34 :: r
      | _ => none
    else (unquoteBody fuel rest).map fun r => b :: r

/-- Model of `strconv.Unquote` on double-quoted string lexemes. -/
def unquoteBytes (bs : List Nat) : Option (List Nat) :=
  match bs with
  | 34 :: rest =>
    match rest.getLast? with
    | some 34 => unquoteBody (bs.length + 1) rest.dropLast
    | _ => none
  | _ => none

/-- `Parser.parseIdent`: an identifier node from the current token. -/
def parseIdentE (p : Parser) : Expr × Parser :=
  (.ident (slice p.src p.current.start p.current.stop) p.current, p)

/-- `Parser.parseNumber`: convert the current lexeme with `ParseFloat`;
a conversion failure is a syntax error, and the node is built regardless
(with the zero value on failure, as in Go). -/
def parseNumberE (p : Parser) : Expr × Parser :=
  let lx := slice p.src p.current.start p.current.stop
  match parseFloatBytes lx with
  | some n => (.num n p.current, p)
  | none => (.num 0 p.current, p.syntaxError (.invalidNumberLiteral lx))

/-- `Parser.parseBool`. -/
def parseBoolE (p : Parser) : Expr × Parser :=
  let lx := slice p.src p.current.start p.current.stop
  match parseBoolBytes lx with
  | some v => (.bool v p.current, p)
  | none => (.bool false p.current, p.syntaxError (.invalidBoolLiteral lx))

/-- `Parser.parseString`. -/
def parseStringE (p : Parser) : Expr × Parser :=
  let lx := slice p.src p.current.start p.current.stop
  match unquoteBytes lx with
  | some s => (.str s p.current, p)
  | none => (.str [] p.current, p.syntaxError (.invalidStringLiteral lx))

mutual

/-- `Parser.parseExpression`: precedence-climbing expression parsing — a
prefix/primary expression, then the binary-operator loop.  (Each mutual
call structurally decrements the fuel; `parse` supplies enough fuel that
this never bites: every cycle through these functions consumes at least one
token.) -/
def parseExpression : Nat → Parser → Nat → Expr × Parser
  | 0, p, _ => (.null, p)
  | fuel + 1, p, precedence =>
    match p.current.kind with
    | .ident =>
      let ep := parseIdentE p
      binaryLoop fuel ep.2 precedence ep.1
    | .number =>
      let ep := parseNumberE p
      binaryLoop fuel ep.2 precedence ep.1
    | .string =>
      let ep := parseStringE p
      binaryLoop fuel ep.2 precedence ep.1
    | .bang =>
      let ep := parseUnaryExpression fuel p
      binaryLoop fuel ep.2 precedence ep.1
    | .minus =>
      let ep := parseUnaryExpression fuel p
      binaryLoop fuel ep.2 precedence ep.1
    | .kwTrue =>
      let ep := parseBoolE p
      binaryLoop fuel ep.2 precedence ep.1
    | .kwFalse =>
      let ep := parseBoolE p
      binaryLoop fuel ep.2 precedence ep.1
    | .openParen =>
      let ep := parseGroupedExpression fuel p
      binaryLoop fuel ep.2 precedence ep.1
    | k => (.null, p.syntaxError (.unhandledTokenInExpression k))

/-- The `for !p.next.Is(SemiColon) && p.next.Precedence() > precedence`
loop of `parseExpression`, folding binary operators left-associatively. -/
def binaryLoop : Nat → Parser → Nat → Expr → Expr × Parser
  | 0, p, _, e => (e, p)
  | fuel + 1, p, precedence, expression =>
    if ¬p.next.is .semiColon ∧ p.next.precedence > precedence then
      let p1 := p.advance
      if p1.current.isBinaryOp then
        let ep := parseBinaryExpression fuel p1 expression
        binaryLoop fuel ep.2 precedence ep.1
      else
        (.null, p1.syntaxError (.invalidBinaryOp p1.current.kind))
    else (expression, p)

/-- `Parser.parseBinaryExpression`. -/
def parseBinaryExpression : Nat → Parser → Expr → Expr × Parser
  | 0, p, left => (.binary left p.current .null, p)
  | fuel + 1, p, left =>
    let op := p.current
    let precedence := p.current.precedence
    let p1 := p.advance
    let ep := parseExpression fuel p1 precedence
    (.binary left op ep.1, ep.2)

/-- `Parser.parseUnaryExpression`. -/
def parseUnaryExpression : Nat → Parser → Expr × Parser
  | 0, p => (.unary p.current .null, p)
  | fuel + 1, p =>
    let tok := p.current
    let p1 := p.advance
    let ep := parseExpression fuel p1 precedenceUnary
    (.unary tok ep.1, ep.2)

/-- `Parser.parseGroupedExpression`: parse the inner expression at the
lowest precedence, then expect the matching `)`. -/
def parseGroupedExpression : Nat → Parser → Expr × Parser
  | 0, p => (.grouped .null p.current p.current, p)
  | fuel + 1, p =>
    let lparen := p.current
    let p1 := p.advance
    let ep := parseExpression fuel p1 precedenceMin
    let p2 := ep.2.expect .closeParen
    (.grouped ep.1 lparen p2.current, p2)

end

/-- `Parser.parseVarDecl`: `var <ident> = <expr>` (the `var` keyword is the
current token; `expect` moves onto the identifier). -/
def parseVarDecl (fuel : Nat) (p : Parser) : Decl × Parser :=
  let p1 := p.expect .ident
  let identName := slice p1.src p1.current.start p1.current.stop
  let identTok := p1.current
  let p2 := p1.expect .eq
  let p3 := p2.advance
  let ep := parseExpression fuel p3 precedenceMin
  (.varDecl identName identTok ep.1, ep.2)

/-- `Parser.parseDeclaration`. -/
def parseDeclaration (fuel : Nat) (p : Parser) : Decl × Parser :=
  match p.current.kind with
  | .kwVar => parseVarDecl fuel p
  | k => (.null, p.syntaxError (.unhandledTokenInDeclaration k))

/-- `Parser.parseReturnStatement`: `return <expr>;`. -/
def parseReturnStatement (fuel : Nat) (p : Parser) : Stmt × Parser :=
  let tok := p.current
  let p1 := p.advance
  let ep := parseExpression fuel p1 precedenceMin
  let p2 := ep.2.expect .semiColon
  (.returnStmt ep.1 tok, p2)

/-- `Parser.parsePrintStatement`: `print <expr>;`. -/
def parsePrintStatement (fuel : Nat) (p : Parser) : Stmt × Parser :=
  let tok := p.current
  let p1 := p.advance
  let ep := parseExpression fuel p1 precedenceMin
  let p2 := ep.2.expect .semiColon
  (.printStmt ep.1 tok, p2)

/-- `Parser.parseExpressionStatement`: `<expr>;` (the statement's token
field is left as the zero token, as in the Go struct literal). -/
def parseExpressionStatement (fuel : Nat) (p : Parser) : Stmt × Parser :=
  let ep := parseExpression fuel p precedenceMin
  let p1 := ep.2.expect .semiColon
  (.exprStmt ep.1 zeroToken, p1)

/-- `Parser.parseDeclarationStatement`. -/
def parseDeclarationStatement (fuel : Nat) (p : Parser) : Stmt × Parser :=
  let dp := parseDeclaration fuel p
  let p1 := dp.2.expect .semiColon
  (.declStmt dp.1, p1)

/-- `Parser.parseStatement`: dispatch on the current token's kind. -/
def parseStatement (fuel : Nat) (p : Parser) : Stmt × Parser :=
  match p.current.kind with
  | .kwReturn => parseReturnStatement fuel p
  | .kwPrint => parsePrintStatement fuel p
  | .kwVar => parseDeclarationStatement fuel p
  | _ => parseExpressionStatement fuel p

/-- The loop of `Parser.Parse`: while the current token is not EOF, parse a
statement, append it *only when no error has been recorded so far*
(`statement != nil && len(p.errs) == 0`; a statement interface returned
from the concrete parse functions is never nil), then advance. -/
def parseLoop : Nat → Parser → Program → Program × Parser
  | 0, p, prog => (prog, p)
  | fuel + 1, p, prog =>
    if p.current.is .eof then (prog, p)
    else
      let sp := parseStatement fuel p
      let prog' :=
        if sp.2.errs.length = 0 then Program.mk (prog.statements ++ [sp.1])
        else prog
      parseLoop fuel (sp.2.advance) prog'

/-- `Parser.Parse`: parse a whole source to completion, returning the
program and the recorded syntax errors. -/
def parse (name : String) (src : List Nat) : Program × List SyntaxError :=
  let p := parserNew name src
  let r := parseLoop (8 * (p.toks.length + src.length) + 64) p (Program.mk [])
  (r.1, r.2.errs)

/-- `errors.Join(p.errs...)`: nil exactly when the error list is empty
(every recorded `SyntaxError` is non-nil). -/
def aggregatedError (errs : List SyntaxError) : Option (List SyntaxError) :=
  if errs.isEmpty then none else some errs

/-- The `Precedence()` rendering of a parsed statement's expression. -/
def stmtRender : Stmt → List Nat
  | .exprStmt e _ => e.render
  | .printStmt e _ => e.render
  | .returnStmt e _ => e.render
  | .declStmt _ => []

/-- C4: parsing each of the four literal precedence scenarios succeeds with
no syntax error and produces an AST whose fully-parenthesised `Precedence()`
rendering is exactly the expected string — binary operators bind per the
precedence ladder, left-associatively. -/
theorem c4_precedence_scenarios :
    ((parse "test" (strBytes "-a * b;")).1.statements.map stmtRender
        = [strBytes "((-a) * b)"]
      ∧ (parse "test" (strBytes "-a * b;")).2 = [])
    ∧ ((parse "test" (strBytes "a + b * c + d / e - f;")).1.statements.map stmtRender
        = [strBytes "(((a + (b * c)) + (d / e)) - f)"]
      ∧ (parse "test" (strBytes "a + b * c + d / e - f;")).2 = [])
    ∧ ((parse "test" (strBytes "5 > 4 == 3 < 4;")).1.statements.map stmtRender
        = [strBytes "((5 > 4) == (3 < 4))"]
      ∧ (parse "test" (strBytes "5 > 4 == 3 < 4;")).2 = [])
    ∧ ((parse "test" (strBytes "(5 + 5) * 2;")).1.statements.map stmtRender
        = [strBytes "((5 + 5) * 2)"]
      ∧ (parse "test" (strBytes "(5 + 5) * 2;")).2 = []) := by
  refine ⟨⟨?_, ?_⟩, ⟨?_, ?_⟩, ⟨?_, ?_⟩, ⟨?_, ?_⟩⟩ <;> decide

/-- C2: The claim states that whenever `Parse` records at least one syntax
error the returned `Program` has an *empty* statement list.  The code only
stops appending once an error has been recorded (`len(p.errs) == 0` is
checked per statement), so statements parsed successfully *before* the
first error stay in the program.  On `1; var;` the first statement parses
cleanly and is kept, then the `var` declaration records errors: the result
has one statement alongside a non-empty error list (and a non-nil
aggregated error).  On the single-statement `var x = 2` the program is
empty as the spec's own test expects — the discard fails only once a clean
statement precedes the error. -/
theorem c2_error_discard_failing_input :
    (parse "test" (strBytes "1; var;")).1.statements.length = 1
    ∧ (parse "test" (strBytes "1; var;")).2.length = 4
    ∧ (aggregatedError ((parse "test" (strBytes "1; var;")).2)).isSome = true
    ∧ (parse "test" (strBytes "var x = 2")).1.statements.length = 0
    ∧ (parse "test" (strBytes "var x = 2")).2.length = 1 := by
  refine ⟨?_, ?_, ?_, ?_, ?_⟩ <;> decide

/-- The aggregated error from `Parse` is non-nil exactly when the recorded
error list is non-empty (the half of C2 that does hold, for every error
list `errors.Join` can receive). -/
theorem aggregatedError_iff (errs : List SyntaxError) :
    (aggregatedError errs).isSome = !errs.isEmpty := by
  simp only [aggregatedError]
  split_ifs with h <;> simp [h]

end Glox
